import Mathlib

/-!
Verification of the scheduled-notification engine of a Telegram alarm bot.

The development shallowly embeds the `ScheduleService` (the variant with the
daily-summary aggregator and the `event` schedule type) together with the
storage layer it drives.  Strings are handled at the level of their character
lists so that the JavaScript string primitives used by the source
(`trim`, `split`, `Number`, `padStart`, template literals) can be modelled by
structurally recursive functions, and timestamps are epoch milliseconds as
integers, mirroring `Date.prototype.getTime`.
-/

namespace TelegramAlarmBot

/-- Whitespace test used by the model for JS `trim` and `split(/\s+/)`:
the ASCII whitespace characters that can realistically occur in a cron
expression string. -/
def isWsChar (c : Char) : Bool :=
  c = ' ' || c = '\t' || c = '\n' || c = '\r' || c = '\x0b' || c = '\x0c'

/-- Splits a character list at every character satisfying `p`, keeping empty
pieces, as JS `String.prototype.split` does with a single-character
separator. `[]` maps to `[[]]` just as `"".split(sep)` is `[""]`. -/
def splitOnP (p : Char → Bool) : List Char → List (List Char)
  | [] => [[]]
  | c :: cs =>
    match splitOnP p cs with
    | [] => [[]]
    | h :: t => if p c then [] :: h :: t else (c :: h) :: t

/-- Model of JS `String.prototype.trim` on a character list. -/
def jsTrim (s : List Char) : List Char :=
  ((s.dropWhile isWsChar).reverse.dropWhile isWsChar).reverse

/-- Model of JS `str.trim().split(/\s+/)`: whitespace-separated fields.
After trimming, splitting on single whitespace characters and dropping the
empty pieces produced by runs of whitespace yields exactly the fields the
regex split produces (for the all-whitespace string JS yields `[""]` and this
model yields `[]`; both fail the `parts.length < 5` guard of the only
caller). -/
def wsFields (s : List Char) : List (List Char) :=
  (splitOnP isWsChar (jsTrim s)).filter (fun f => f ≠ [])

/-- Decimal value of a digit string, most significant digit first. -/
def parseDigits (s : List Char) : Nat :=
  s.foldl (fun n c => n * 10 + (c.toNat - 48)) 0

/-- Model of the JS `Number(string)` conversion on the string shapes that can
occur in cron fields: the empty (or all-whitespace) string converts to `0`,
an optionally signed decimal digit string converts to its value, and every
other string converts to NaN, modelled as `none`.  (Fractional, hexadecimal
and exponent forms never occur in a 5-field cron expression and are mapped
to `none`.) -/
def jsNumberL (s : List Char) : Option Int :=
  match jsTrim s with
  | [] => some 0
  | c :: cs =>
    if c = '-' then
      if cs ≠ [] ∧ cs.all Char.isDigit then some (-(parseDigits cs : Int)) else none
    else if c = '+' then
      if cs ≠ [] ∧ cs.all Char.isDigit then some ((parseDigits cs : Int)) else none
    else if (c :: cs).all Char.isDigit then some ((parseDigits (c :: cs) : Int)) else none

/-! ## Cron subset interpreter

Embedding of `cronFieldMatches`, `cronDowMatches` and `cronMatchesToday`
from the schedule service.  The calendar components handed to them by
`sendDailySummary` are natural numbers (`getUTCDay`, `getUTCDate`,
`getUTCMonth()+1`). -/

/-- One comma-separated part of a cron field, as `cronFieldMatches` tries
it: a step term (contains `/`), else a range (contains `-`), else a literal;
JS `value % step` with `step = 0` or `step = NaN` is NaN and never equals
0. -/
def cronPartMatches (value : Nat) (part : List Char) : Bool :=
  if part.contains '/' then
    let range := (splitOnP (fun c => c = '/') part).getD 0 []
    match jsNumberL ((splitOnP (fun c => c = '/') part).getD 1 []) with
    | some step => range = ['*'] && step ≠ 0 && (value : Int) % step == 0
    | none => false
  else if part.contains '-' then
    match jsNumberL ((splitOnP (fun c => c = '-') part).getD 0 []),
          jsNumberL ((splitOnP (fun c => c = '-') part).getD 1 []) with
    | some start, some stop => start ≤ (value : Int) && (value : Int) ≤ stop
    | _, _ => false
  else
    match jsNumberL part with
    | some n => n == (value : Int)
    | none => false

/-- Embedding of `cronFieldMatches(field, value)`: `*` matches anything;
otherwise the field is split at commas and the value matches if some part
matches. -/
def cronFieldMatchesL (field : List Char) (value : Nat) : Bool :=
  if field = ['*'] then true
  else (splitOnP (fun c => c = ',') field).any (cronPartMatches value)

/-- One comma-separated part of a day-of-week field, as `cronDowMatches`
tries it: only the range and literal branches exist (the source has no `/`
case here), and a literal `7` also matches weekday `0`. -/
def cronDowPartMatches (todayDow : Nat) (part : List Char) : Bool :=
  if part.contains '-' then
    match jsNumberL ((splitOnP (fun c => c = '-') part).getD 0 []),
          jsNumberL ((splitOnP (fun c => c = '-') part).getD 1 []) with
    | some start, some stop => start ≤ (todayDow : Int) && (todayDow : Int) ≤ stop
    | _, _ => false
  else
    match jsNumberL part with
    | some v => v == (todayDow : Int) || (v == 7 && todayDow == 0)
    | none => false

/-- Embedding of `cronDowMatches(field, todayDow)`. -/
def cronDowMatchesL (field : List Char) (todayDow : Nat) : Bool :=
  if field = ['*'] then true
  else (splitOnP (fun c => c = ',') field).any (cronDowPartMatches todayDow)

/-- String-level wrapper for `cronFieldMatchesL`. -/
def cronFieldMatches (field : String) (value : Nat) : Bool :=
  cronFieldMatchesL field.data value

/-- String-level wrapper for `cronDowMatchesL`. -/
def cronDowMatches (field : String) (todayDow : Nat) : Bool :=
  cronDowMatchesL field.data todayDow

/-- Embedding of `cronMatchesToday(cron, todayDow, todayDate, todayMonth)`:
splits the expression into whitespace-separated fields, rejects expressions
with fewer than five fields, and tests the month, day-of-month and
day-of-week fields in the source's order. -/
def cronMatchesTodayL (cron : List Char) (todayDow todayDate todayMonth : Nat) : Bool :=
  let parts := wsFields cron
  if parts.length < 5 then false
  else
    cronFieldMatchesL (parts.getD 3 []) todayMonth &&
    cronFieldMatchesL (parts.getD 2 []) todayDate &&
    cronDowMatchesL (parts.getD 4 []) todayDow

/-- String-level wrapper for `cronMatchesTodayL`. -/
def cronMatchesToday (cron : String) (todayDow todayDate todayMonth : Nat) : Bool :=
  cronMatchesTodayL cron.data todayDow todayDate todayMonth


/-! ## Calendar helpers

The service works in a fixed `Asia/Seoul` (+09:00) offset obtained by adding
nine hours to the UTC timestamp and then reading UTC calendar components.
Two timestamps have equal `getUTCFullYear`/`getUTCMonth`/`getUTCDate`
triples exactly when they fall in the same whole day since the epoch, so the
date-equality comparisons of the source are embedded as equality of the
floored day index. -/

def msPerDay : Int := 86400000

def msPerHour : Int := 3600000

def msPerMinute : Int := 60000

def kstOffsetMs : Int := 9 * msPerHour

/-- Day index (days since 1970-01-01) of a JS timestamp, as used implicitly
by `getUTCFullYear`/`getUTCMonth`/`getUTCDate` and by `Date.UTC` of that
triple. -/
def utcDayIndex (t : Int) : Int := Int.fdiv t msPerDay

/-- Equality of the +09:00 calendar dates of two timestamps.  This embeds
both `isDateToday(date, kstNow)` (where the caller passes the already
shifted `kstNow`) and the `eventKst !== todayKst` comparison of `findAll`:
each one shifts by nine hours and compares the UTC Y/M/D triple, which
agrees exactly when the floored day indices agree. -/
def isDateToday (t kstNow : Int) : Bool :=
  utcDayIndex (t + kstOffsetMs) == utcDayIndex kstNow

/-- Model of `getUTCDay` (0 = Sunday): the epoch day 1970-01-01 was a
Thursday (4). -/
def jsGetUTCDay (t : Int) : Nat :=
  ((utcDayIndex t + 4).emod 7).toNat

/-- Proleptic Gregorian civil date `(year, month, day)` from a count of days
since 1970-01-01, following the classical era-based conversion algorithm;
this is the arithmetic behind `getUTCFullYear`, `getUTCMonth` and
`getUTCDate`. -/
def civilFromDays (z0 : Int) : Int × Nat × Nat :=
  let z := z0 + 719468
  let era := Int.fdiv z 146097
  let doe := (z - era * 146097).toNat
  let yoe := (doe - doe / 1460 + doe / 36524 - doe / 146096) / 365
  let doy := doe - (365 * yoe + yoe / 4 - yoe / 100)
  let mp := (5 * doy + 2) / 153
  let d := doy - (153 * mp + 2) / 5 + 1
  let m := if mp < 10 then mp + 3 else mp - 9
  ((yoe : Int) + era * 400 + (if m ≤ 2 then 1 else 0), m, d)

/-- Model of `getUTCDate` (day of month, 1-31). -/
def jsGetUTCDate (t : Int) : Nat := (civilFromDays (utcDayIndex t)).2.2

/-- Model of `getUTCMonth() + 1` (month, 1-12), the form used by the daily
summary. -/
def jsGetUTCMonth1 (t : Int) : Nat := (civilFromDays (utcDayIndex t)).2.1

/-- Model of `getUTCHours`. -/
def jsGetUTCHours (t : Int) : Int := (Int.fdiv t msPerHour).emod 24

/-- Model of `getUTCMinutes`. -/
def jsGetUTCMinutes (t : Int) : Int := (Int.fdiv t msPerMinute).emod 60


/-! ## Data model

Embedding of `ScheduledNotificationEntity` and the request DTOs.  Ids are
opaque; natural numbers stand in for the UUID strings.  `scheduledAt` is the
epoch-millisecond instant of the stored `Date`, absent when the column is
NULL. -/

inductive SchedType
  | fixed
  | manual
  | event
deriving DecidableEq, Repr

/-- String form of a schedule type, as stored in the entity's `type` column
and compared against the `type` query filter. -/
def SchedType.str : SchedType → String
  | .fixed => "fixed"
  | .manual => "manual"
  | .event => "event"

structure Schedule where
  id : Nat
  type : SchedType
  name : String
  message : String
  chatId : String
  enabled : Bool
  cron : Option String
  scheduledAt : Option Int
  eventTime : Option String
  description : Option String
deriving DecidableEq, Repr

/-- Embedding of `CreateScheduleDto` (the three-type variant): the optional
string fields are `none` when absent.  `scheduledAt` is carried as the
parsed instant of the ISO string. -/
structure CreateDto where
  type : SchedType
  name : String
  message : String
  chatId : Option String := none
  cron : Option String := none
  scheduledAt : Option Int := none
  eventTime : Option String := none
  description : Option String := none
deriving DecidableEq, Repr

/-- Embedding of `UpdateScheduleDto`: every field optional, `some` meaning
the field is present in the PATCH body (the service only forwards present
fields to the storage update). -/
structure UpdateData where
  name : Option String := none
  message : Option String := none
  chatId : Option String := none
  cron : Option String := none
  scheduledAt : Option Int := none
  enabled : Option Bool := none
  eventTime : Option String := none
  description : Option String := none
deriving DecidableEq, Repr

/-- Effect of TypeORM `repo.update(id, partial)` on a single row: each column
present in the partial overwrites the row's column. -/
def applyUpdate (r : Schedule) (u : UpdateData) : Schedule :=
  { r with
    name := u.name.getD r.name
    message := u.message.getD r.message
    chatId := u.chatId.getD r.chatId
    cron := match u.cron with | some c => some c | none => r.cron
    scheduledAt := match u.scheduledAt with | some t => some t | none => r.scheduledAt
    enabled := u.enabled.getD r.enabled
    eventTime := match u.eventTime with | some e => some e | none => r.eventTime
    description := match u.description with | some d => some d | none => r.description }

/-- The durable store: rows in `createdAt` ascending order, which is the
order `ScheduleStorageService.findAll` returns and in which `create`
appends. -/
def storeFind (store : List Schedule) (id : Nat) : Option Schedule :=
  store.find? (fun r => r.id = id)

def storeUpdate (store : List Schedule) (id : Nat) (u : UpdateData) : List Schedule :=
  store.map (fun r => if r.id = id then applyUpdate r u else r)

def storeDelete (store : List Schedule) (id : Nat) : List Schedule :=
  store.filter (fun r => r.id ≠ id)

def storeIds (store : List Schedule) : List Nat := store.map (fun r => r.id)

/-! ## Runtime scheduler state -/

/-- The scheduler's in-memory state: the durable store plus the two live
registries `cronJobs : Map<string, CronJob>` and
`timers : Map<string, Timeout>`.  Only the key sets of the maps matter to
the claims, so each map is embedded as its list of keys in insertion
order. -/
structure SchedState where
  store : List Schedule
  cronJobs : List Nat
  timers : List Nat
deriving DecidableEq, Repr

/-- JS `Map.prototype.set`: an existing key keeps its position, a new key is
appended. -/
def mapSet (m : List Nat) (id : Nat) : List Nat :=
  if id ∈ m then m else m ++ [id]

/-- JS `Map.prototype.delete` on the key set. -/
def mapDelete (m : List Nat) (id : Nat) : List Nat :=
  m.filter (fun k => k ≠ id)

/-- Error kinds surfaced by the service: `badRequest` for the
`BadRequestException` validation failures (the spec's `PastScheduledTime`),
`notFound` for `NotFoundException`, and `typeError` for the runtime
`TypeError` a `!` non-null assertion would raise on a missing value. -/
inductive SchedErr
  | badRequest
  | notFound
  | typeError
deriving DecidableEq, Repr

/-- Ambient inputs of an operation: the current `Date.now()`, the configured
`TELEGRAM_DEFAULT_CHAT_ID`, and an oracle telling whether
`new CronJob(cron, ...)` accepts a given cron column value (the `cron`
library is external; construction may throw, which `startCronJob`
catches). -/
structure Env where
  now : Int
  defaultChatId : String
  cronAccepts : Option String → Bool

/-- Embedding of `startCronJob(schedule)`: construction of the `CronJob` is
wrapped in try/catch, so on rejection nothing is registered and no error
escapes; on success the job is stored under the schedule's id. -/
def startCronJob (env : Env) (sched : Schedule) (s : SchedState) : SchedState :=
  if env.cronAccepts sched.cron then
    { s with cronJobs := mapSet s.cronJobs sched.id }
  else s

/-- Embedding of `startTimer(schedule)`: reads `schedule.scheduledAt!`
(`typeError` when the column is NULL), returns without registering when the
delay is not positive, and otherwise registers the timeout under the
schedule's id. -/
def startTimer (env : Env) (sched : Schedule) (s : SchedState) :
    SchedState × Option SchedErr :=
  match sched.scheduledAt with
  | none => (s, some .typeError)
  | some t =>
    if t - env.now ≤ 0 then (s, none)
    else ({ s with timers := mapSet s.timers sched.id }, none)

/-- Embedding of `stopJob(id)`: stops and removes the cron job for `id` if
present, then clears and removes the timer for `id` if present.  On the key
sets this is deletion from both maps. -/
def stopJob (s : SchedState) (id : Nat) : SchedState :=
  { s with cronJobs := mapDelete s.cronJobs id, timers := mapDelete s.timers id }

/-- Embedding of `sendScheduledMessage(schedule)`: resolves the destination
(`schedule.chatId || defaultChatId`) and attempts exactly one dispatch; a
dispatch failure is caught and only logged.  The result is the list of
dispatch attempts (always one) paired with whether a failure was logged;
no error ever escapes to the caller. -/
def sendScheduledMessage (env : Env) (dispatchOk : Bool) (sched : Schedule) :
    List (String × String) × Bool :=
  let chatId := if sched.chatId = "" then env.defaultChatId else sched.chatId
  ([(chatId, sched.message)], !dispatchOk)

/-- Embedding of the `setTimeout` callback registered by `startTimer`: it
dispatches via `sendScheduledMessage` (whose failures are swallowed), then
unconditionally persists `enabled = false` for the schedule's id and deletes
its timer handle.  Returns the new state and the dispatch attempts. -/
def timerFire (env : Env) (dispatchOk : Bool) (sched : Schedule) (s : SchedState) :
    SchedState × List (String × String) :=
  let (sends, _logged) := sendScheduledMessage env dispatchOk sched
  let s1 : SchedState :=
    { s with store := storeUpdate s.store sched.id { enabled := some false } }
  ({ s1 with timers := mapDelete s1.timers sched.id }, sends)

/-- Truthiness of `dto.chatId || this.defaultChatId` for an optional string:
absent or empty falls back to the default. -/
def jsOrDefault (o : Option String) (d : String) : String :=
  match o with
  | some c => if c = "" then d else c
  | none => d

/-- Embedding of `create(dto)`: a manual dto carrying a non-future
`scheduledAt` is rejected before anything is persisted; otherwise the record
is stored with `enabled = true` and a fresh id, then a cron job (fixed) or a
timeout (manual) is started.  `newId` stands for the UUID the storage layer
assigns; the storage append keeps `createdAt` order. -/
def mkNewSchedule (env : Env) (newId : Nat) (dto : CreateDto) : Schedule :=
  { id := newId, type := dto.type, name := dto.name, message := dto.message
    chatId := jsOrDefault dto.chatId env.defaultChatId
    enabled := true
    cron := dto.cron, scheduledAt := dto.scheduledAt
    eventTime := dto.eventTime, description := dto.description }

def create (env : Env) (newId : Nat) (dto : CreateDto) (s : SchedState) :
    SchedState × Except SchedErr Schedule :=
  if dto.type == .manual && dto.scheduledAt.any (fun t => t ≤ env.now) then
    (s, .error .badRequest)
  else
    let sched : Schedule := mkNewSchedule env newId dto
    let s1 : SchedState := { s with store := s.store ++ [sched] }
    if sched.type == .fixed then (startCronJob env sched s1, .ok sched)
    else if sched.type == .manual then
      match startTimer env sched s1 with
      | (s2, some e) => (s2, .error e)
      | (s2, none) => (s2, .ok sched)
    else (s1, .ok sched)

/-- Truthiness of an optional string filter argument: JS `if (filter && ...)`
skips the test for an absent or empty filter. -/
def strTruthy (o : Option String) : Bool :=
  match o with
  | some c => c ≠ ""
  | none => false

/-- Row predicate of `findAll(type?, chatId?)`: the chat filter, the type
filter, the rule hiding manual records whose `scheduledAt` has elapsed, and
the rule hiding event records whose +09:00 date is not today's. -/
def keepInFindAll (env : Env) (type? chatId? : Option String) (r : Schedule) : Bool :=
  if strTruthy chatId? && r.chatId != chatId?.getD "" then false
  else if strTruthy type? && r.type.str != type?.getD "" then false
  else if r.type == .manual && r.scheduledAt.any (fun t => t ≤ env.now) then false
  else if r.type == .event && r.scheduledAt.any (fun t => !isDateToday t (env.now + kstOffsetMs)) then
    false
  else true

/-- Embedding of `findAll(type?, chatId?)` of the schedule service. -/
def findAll (env : Env) (type? chatId? : Option String) (store : List Schedule) :
    List Schedule :=
  store.filter (keepInFindAll env type? chatId?)

/-- Embedding of `findById(id)`. -/
def findById (store : List Schedule) (id : Nat) : Except SchedErr Schedule :=
  match storeFind store id with
  | none => .error .notFound
  | some r => .ok r

/-- Embedding of `update(id, dto)`: re-validates the future-time rule when a
manual record's `scheduledAt` is being changed, then always cancels the live
entry, writes the partial update, and re-registers according to the updated
record (a manual record whose time is no longer future is forced back to
`enabled = false`).  The state component of the result is the state at the
point the operation returns or throws. -/
def update (env : Env) (id : Nat) (dto : UpdateData) (s : SchedState) :
    SchedState × Except SchedErr Schedule :=
  match findById s.store id with
  | .error e => (s, .error e)
  | .ok existing =>
    if dto.scheduledAt.isSome && existing.type == .manual
        && dto.scheduledAt.any (fun t => t ≤ env.now) then
      (s, .error .badRequest)
    else
      let s1 := stopJob s id
      let s2 : SchedState := { s1 with store := storeUpdate s1.store id dto }
      match storeFind s2.store id with
      | none => (s2, .error .notFound)
      | some updated =>
        if updated.enabled then
          if updated.type == .fixed then (startCronJob env updated s2, .ok updated)
          else if updated.type == .manual then
            if updated.scheduledAt.any (fun t => env.now < t) then
              ((startTimer env updated s2).1, .ok updated)
            else
              ({ s2 with store := storeUpdate s2.store id { enabled := some false } },
               .ok updated)
          else (s2, .ok updated)
        else (s2, .ok updated)

/-- Embedding of `delete(id)`: looks the record up (`notFound` when absent),
cancels the live entry, removes the row. -/
def deleteSchedule (id : Nat) (s : SchedState) : SchedState × Except SchedErr Unit :=
  match findById s.store id with
  | .error e => (s, .error e)
  | .ok _ =>
    let s1 := stopJob s id
    ({ s1 with store := storeDelete s1.store id }, .ok ())

/-- Embedding of `toggleEnabled(id)`: flips `enabled`, always cancelling the
live entry first; re-enabling a fixed record starts its cron job, re-enabling
a manual record whose `scheduledAt` is missing or not future throws
`badRequest` (after the cancellation, before any store write); finally the
new flag is persisted and the updated row returned (`result!`). -/
def toggleEnabled (env : Env) (id : Nat) (s : SchedState) :
    SchedState × Except SchedErr Schedule :=
  match findById s.store id with
  | .error e => (s, .error e)
  | .ok sched =>
    let newEnabled := !sched.enabled
    let s1 := stopJob s id
    let afterStart : SchedState × Except SchedErr Unit :=
      if newEnabled then
        if sched.type == .fixed then (startCronJob env sched s1, .ok ())
        else if sched.type == .manual then
          match sched.scheduledAt with
          | none => (s1, .error .badRequest)
          | some t =>
            if t ≤ env.now then (s1, .error .badRequest)
            else ((startTimer env sched s1).1, .ok ())
        else (s1, .ok ())
      else (s1, .ok ())
    match afterStart with
    | (s2, .error e) => (s2, .error e)
    | (s2, .ok _) =>
      let store2 := storeUpdate s2.store id { enabled := some newEnabled }
      match storeFind store2 id with
      | none => ({ s2 with store := store2 }, .error .typeError)
      | some result => ({ s2 with store := store2 }, .ok result)

/-- One iteration of the restore loop: disabled records are skipped, enabled
fixed records start a cron job, enabled manual records start a timeout when
still future and are persisted `enabled = false` when expired
(`schedule.scheduledAt!` raises on a NULL column); event records are left
alone. -/
def restoreStep (env : Env) (s : SchedState) (sched : Schedule) :
    SchedState × Option SchedErr :=
  if !sched.enabled then (s, none)
  else if sched.type == .fixed then (startCronJob env sched s, none)
  else if sched.type == .manual then
    match sched.scheduledAt with
    | none => (s, some .typeError)
    | some t =>
      if env.now < t then startTimer env sched s
      else
        ({ s with store := storeUpdate s.store sched.id { enabled := some false } }, none)
  else (s, none)

/-- The restore loop over a snapshot of the store, threading the state; an
uncaught error aborts the loop with the state reached so far. -/
def restoreGo (env : Env) : List Schedule → SchedState → SchedState × Option SchedErr
  | [], s => (s, none)
  | sched :: rest, s =>
    match restoreStep env s sched with
    | (s1, none) => restoreGo env rest s1
    | (s1, some e) => (s1, some e)

/-- Embedding of `restoreSchedules()`: iterates over `storage.findAll()`
(taken once, up front) and restores each record. -/
def restoreSchedules (env : Env) (s : SchedState) : SchedState × Option SchedErr :=
  restoreGo env s.store s

/-! ## Daily summary aggregator

Embedding of `sendDailySummary`.  The digest text itself is presentation;
the embedding keeps the structured content each digest is built from: the
destination, the sorted alarm entries and the event entries.  One message is
dispatched per emitted digest (its try/catch swallows transport failures),
so the returned list is exactly the list of dispatch attempts. -/

structure AlarmItem where
  name : String
  time : String
  eventTime : Option String
  message : String
deriving DecidableEq, Repr

structure EventItem where
  name : String
  message : String
deriving DecidableEq, Repr

/-- Effective destination of a record: `s.chatId || this.defaultChatId`. -/
def effChat (env : Env) (r : Schedule) : String :=
  if r.chatId = "" then env.defaultChatId else r.chatId

/-- Appends a record to the group of `key`, creating the group at the end
when absent: the effect of `byChatId.get(chatId)!.push(s)` after a
conditional `byChatId.set(chatId, [])` on a JS `Map`. -/
def pushGroup (groups : List (String × List Schedule)) (key : String) (r : Schedule) :
    List (String × List Schedule) :=
  match groups with
  | [] => [(key, [r])]
  | (k, v) :: rest =>
    if k = key then (k, v ++ [r]) :: rest else (k, v) :: pushGroup rest key r

/-- Grouping of the enabled records by effective destination, in first-seen
key order, as the JS `Map` iteration order produces. -/
def groupByChat (env : Env) (l : List Schedule) : List (String × List Schedule) :=
  l.foldl (fun g r => pushGroup g (effChat env r) r) []

/-- Embedding of `truncateStr(str, max)`: newlines become spaces, and a
string longer than `max` code points is cut and suffixed with an ellipsis
(JS slices UTF-16 units; the strings involved here stay within the basic
plane, where the two notions of length agree). -/
def truncateStr (str : String) (max : Nat) : String :=
  let oneLine := String.mk (str.data.map (fun c => if c = '\n' then ' ' else c))
  if oneLine.length > max then String.mk (oneLine.data.take max) ++ "…" else oneLine

/-- The display text `s.description || s.message`. -/
def descOrMessage (r : Schedule) : String :=
  match r.description with
  | some d => if d = "" then r.message else d
  | none => r.message

/-- JS stringification of a possibly-NaN number, as a template literal
interpolates it. -/
def jsNumToString (o : Option Int) : String :=
  match o with
  | some n => toString n
  | none => "NaN"

/-- Model of `String(n).padStart(2, '0')`. -/
def jsPadStart2 (s : String) : String :=
  if s.length ≥ 2 then s else String.mk (List.replicate (2 - s.length) '0') ++ s

/-- The display time `` `${ampm} ${h12}:${pad(minute)}` `` built by the
summary: `ampm` is `오전` when `hour < 12` (false for NaN), `h12` maps 0 to
12 and `13..` to `1..`, and the minute is zero-padded. -/
def ampmTime (hour minute : Option Int) : String :=
  let ampm := if hour.any (fun h => h < 12) then "오전" else "오후"
  let h12 :=
    match hour with
    | some h => toString (if h = 0 then (12 : Int) else if h > 12 then h - 12 else h)
    | none => "NaN"
  ampm ++ " " ++ h12 ++ ":" ++ jsPadStart2 (jsNumToString minute)

/-- The alarm entry a record contributes to its group's digest, if any:
a fixed record with a non-empty cron that fires today contributes its
cron-derived display time, a manual record whose +09:00 date is today
contributes its instant's display time; other records contribute none. -/
def alarmOf (kstNow : Int) (tDow tDate tMon : Nat) (r : Schedule) : Option AlarmItem :=
  if r.type == .fixed then
    match r.cron with
    | some cron =>
      if cron ≠ "" then
        if cronMatchesToday cron tDow tDate tMon then
          let parts := wsFields cron.data
          some { name := r.name
                 time := ampmTime (jsNumberL (parts.getD 1 [])) (jsNumberL (parts.getD 0 []))
                 eventTime := r.eventTime
                 message := truncateStr (descOrMessage r) 40 }
        else none
      else none
    | none => none
  else if r.type == .manual then
    match r.scheduledAt with
    | some t =>
      if isDateToday t kstNow then
        let kst := t + kstOffsetMs
        some { name := r.name
               time := ampmTime (some (jsGetUTCHours kst)) (some (jsGetUTCMinutes kst))
               eventTime := r.eventTime
               message := truncateStr (descOrMessage r) 40 }
      else none
    | none => none
  else none

/-- The event entry a record contributes to its group's digest, if any. -/
def eventOf (kstNow : Int) (r : Schedule) : Option EventItem :=
  if r.type == .event then
    match r.scheduledAt with
    | some t =>
      if isDateToday t kstNow then
        some { name := r.name, message := truncateStr (descOrMessage r) 40 }
      else none
    | none => none
  else none

/-- The two per-group lists the summary loop accumulates (each record pushes
to at most one of them, so the single pass is the pair of `filterMap`s). -/
def buildItems (kstNow : Int) (tDow tDate tMon : Nat) (g : List Schedule) :
    List AlarmItem × List EventItem :=
  (g.filterMap (alarmOf kstNow tDow tDate tMon), g.filterMap (eventOf kstNow))

/-- Relative ICU (CLDR root) primary collation weight of the characters a
display time string can contain, for modelling `localeCompare` under the
ECMA-402 defaults (punctuation not ignored).  Whitespace sorts first, then
the colon — punctuation sorts *below* the digits, unlike in code-point
order, where `:` sits above them — then the digits in numeric order, then
the letters of `NaN` by base letter (`a` before `N`: case only matters at
the tertiary level), then the Hangul syllables in jamo order
(ㅇ before ㅈ before ㅎ).  Every character of the alphabet has a distinct
primary weight, so on these strings the collation is lexicographic in this
rank; characters that never occur in a display time fall in code-point
order above the known alphabet. -/
def collRank (c : Char) : Nat :=
  if c = ' ' then 0
  else if c = ':' then 1
  else if '0' ≤ c ∧ c ≤ '9' then 2 + (c.toNat - '0'.toNat)
  else if c = 'a' then 12
  else if c = 'N' then 13
  else if c = '오' then 14
  else if c = '전' then 15
  else if c = '후' then 16
  else 17 + c.toNat

/-- The collation key of a display time string: its characters' weights. -/
def collKey (s : String) : List Nat := s.data.map collRank

/-- Strict lexicographic order on weight sequences. -/
def lexLtNat : List Nat → List Nat → Bool
  | [], [] => false
  | [], _ :: _ => true
  | _ :: _, [] => false
  | a :: as, b :: bs => if a < b then true else if b < a then false else lexLtNat as bs

/-- `s.localeCompare(t) <= 0`, as the collation keys compare. -/
def collLe (s t : String) : Bool := !(lexLtNat (collKey t) (collKey s))

/-- Comparator of the alarm sort, modelling
`a.time.localeCompare(b.time) <= 0` as ICU collation of the fixed-format
display time strings. -/
def timeLe (a b : AlarmItem) : Bool := collLe a.time b.time

/-- Embedding of `sendDailySummary()`: filters the enabled records, groups
them by effective destination, computes today's +09:00 calendar components,
builds each group's alarm and event entries, skips groups with neither, and
emits one digest per remaining group with the alarms sorted by the display
time comparator (JS `Array.prototype.sort` is stable mergesort). -/
def sendDailySummary (env : Env) (store : List Schedule) :
    List (String × List AlarmItem × List EventItem) :=
  let enabled := store.filter (fun r => r.enabled)
  let groups := groupByChat env enabled
  let kstNow := env.now + kstOffsetMs
  let tDow := jsGetUTCDay kstNow
  let tDate := jsGetUTCDate kstNow
  let tMon := jsGetUTCMonth1 kstNow
  groups.filterMap fun g =>
    let items := buildItems kstNow tDow tDate tMon g.2
    if items.1.length = 0 ∧ items.2.length = 0 then none
    else some (g.1, items.1.mergeSort timeLe, items.2)

/-- Whether a record qualifies for today's digest of its destination. -/
def qualifiesToday (env : Env) (r : Schedule) : Bool :=
  let kstNow := env.now + kstOffsetMs
  (alarmOf kstNow (jsGetUTCDay kstNow) (jsGetUTCDate kstNow) (jsGetUTCMonth1 kstNow) r).isSome
    || (eventOf kstNow r).isSome

/-! ## Specification-side cron grammar

The spec describes a field as a comma-separated list of sub-terms: literal
integers, inclusive ranges and step terms.  The grammar is rendered to the
concrete string syntax so the interpreter can be compared against the spec's
per-term semantics. -/

/-- Digit character of `d` (defined for `d ≤ 9`; larger arguments clamp). -/
def digitChar (d : Nat) : Char :=
  match d with
  | 0 => '0' | 1 => '1' | 2 => '2' | 3 => '3' | 4 => '4'
  | 5 => '5' | 6 => '6' | 7 => '7' | 8 => '8' | _ => '9'

/-- Decimal rendering of a natural number, most significant digit first. -/
def natChars (n : Nat) : List Char :=
  if _h : n < 10 then [digitChar n]
  else natChars (n / 10) ++ [digitChar (n % 10)]
decreasing_by exact Nat.div_lt_self (by omega) (by omega)

/-- A sub-term of the spec's cron field grammar. -/
inductive CronTerm
  | lit (n : Nat)
  | range (a b : Nat)
  | step (n : Nat)
deriving DecidableEq, Repr

/-- Concrete syntax of a sub-term. -/
def CronTerm.render : CronTerm → List Char
  | .lit n => natChars n
  | .range a b => natChars a ++ '-' :: natChars b
  | .step n => '*' :: '/' :: natChars n

/-- Sub-term semantics of `matchField` as the spec words them: a literal
matches its value, a range matches inclusively, a step `*/n` matches
multiples of `n`. -/
def CronTerm.fieldMatchesSpec (v : Nat) : CronTerm → Bool
  | .lit n => n == v
  | .range a b => decide (a ≤ v ∧ v ≤ b)
  | .step n => v % n == 0

/-- Day-of-week sub-term semantics the code actually implements: literals
gain the `7`-is-Sunday alias, ranges are unchanged, and a step term never
matches (the day-of-week matcher has no `/` branch). -/
def CronTerm.dowMatchesSpec (dow : Nat) : CronTerm → Bool
  | .lit n => n == dow || (n == 7 && dow == 0)
  | .range a b => decide (a ≤ dow ∧ dow ≤ b)
  | .step _ => false

/-- Well-formedness of a sub-term: a step divisor is positive. -/
def CronTerm.wf : CronTerm → Prop
  | .step n => 0 < n
  | _ => True

/-- Concrete syntax of a whole field: the sub-terms joined by commas. -/
def joinSep (sep : Char) : List (List Char) → List Char
  | [] => []
  | [p] => p
  | p :: ps => p ++ sep :: joinSep sep ps

/-- Concrete syntax of a non-empty list of sub-terms. -/
def renderField (ts : List CronTerm) : List Char :=
  joinSep ',' (ts.map CronTerm.render)

/-! ## Invariant and reachability -/

/-- State invariant maintained by the scheduler: each schedule id has at most
one live entry across the two registries, store ids are unique (they are the
primary key), and every live entry belongs to an existing, enabled
record. -/
structure Inv (s : SchedState) : Prop where
  regOk : (s.cronJobs ++ s.timers).Nodup
  idsNodup : (storeIds s.store).Nodup
  liveEnabled : ∀ id ∈ s.cronJobs ++ s.timers, ∃ r ∈ s.store, r.id = id ∧ r.enabled = true

/-- The states the scheduler can reach: a boot state with an empty registry
over any store with unique ids, the state after the start-up restore pass,
and closure under the mutating operations (`create` with the fresh id the
storage layer assigns) and under the firing of a pending one-shot timer
(whose captured schedule is keyed in the timer registry). -/
inductive Reach : SchedState → Prop
  | boot (store : List Schedule) (h : (storeIds store).Nodup) :
      Reach { store := store, cronJobs := [], timers := [] }
  | restore (env : Env) (store : List Schedule) (h : (storeIds store).Nodup) :
      Reach (restoreSchedules env { store := store, cronJobs := [], timers := [] }).1
  | createOp (env : Env) (newId : Nat) (dto : CreateDto) (s : SchedState)
      (hs : Reach s) (hfresh : ∀ r ∈ s.store, r.id ≠ newId) :
      Reach (create env newId dto s).1
  | updateOp (env : Env) (id : Nat) (dto : UpdateData) (s : SchedState) (hs : Reach s) :
      Reach (update env id dto s).1
  | toggleOp (env : Env) (id : Nat) (s : SchedState) (hs : Reach s) :
      Reach (toggleEnabled env id s).1
  | deleteOp (id : Nat) (s : SchedState) (hs : Reach s) :
      Reach (deleteSchedule id s).1
  | fire (env : Env) (ok : Bool) (sched : Schedule) (s : SchedState)
      (hs : Reach s) (hlive : sched.id ∈ s.timers) :
      Reach (timerFire env ok sched s).1

/-! ## Concrete instances used by the closed witness statements -/

/-- Environment with every cron accepted by the job library. -/
def envAcc : Env := { now := 1000, defaultChatId := "D", cronAccepts := fun _ => true }

/-- Environment whose job library rejects every cron expression. -/
def envRej : Env := { now := 1000, defaultChatId := "D", cronAccepts := fun _ => false }

/-- A fixed record. -/
def recFixed (i : Nat) : Schedule :=
  { id := i, type := .fixed, name := "f", message := "m", chatId := "C"
    enabled := true, cron := some "0 9 * * 1-5", scheduledAt := none
    eventTime := none, description := none }

/-- An enabled manual record with the given instant. -/
def recManual (i : Nat) (t : Int) : Schedule :=
  { id := i, type := .manual, name := "w", message := "m", chatId := "C"
    enabled := true, cron := none, scheduledAt := some t
    eventTime := none, description := none }

/-- A disabled manual record with the given instant. -/
def recManualOff (i : Nat) (t : Int) : Schedule :=
  { recManual i t with enabled := false }

/-- The restart-recovery store of the spec's Scenario C: three enabled fixed
records, one enabled manual record still in the future, one enabled manual
record already expired. -/
def storeScenC : List Schedule :=
  [recFixed 1, recFixed 2, recFixed 3, recManual 4 2000, recManual 5 500]

/-- Store of the `findAll` counterexample: a single enabled manual record
whose `scheduledAt` has already elapsed. -/
def storeC8 : List Schedule := [recManual 8 500]

/-- A fixed record for the daily summary counterexample, firing daily at the
given hour. -/
def recDaily (i : Nat) (nm : String) (cronStr : String) : Schedule :=
  { id := i, type := .fixed, name := nm, message := "m", chatId := "C"
    enabled := true, cron := some cronStr, scheduledAt := none
    eventTime := none, description := none }

/-- Store of the daily-summary counterexample: two enabled fixed schedules of
the same destination, firing today at 09:00 and at 10:00. -/
def storeC9 : List Schedule :=
  [recDaily 21 "nine" "0 9 * * *", recDaily 22 "ten" "0 10 * * *"]

/-- The digest entry the 09:00 schedule of the counterexample store yields. -/
def alarmNine : AlarmItem :=
  { name := "nine", time := "오전 9:00", eventTime := none, message := "m" }

/-- The digest entry the 10:00 schedule of the counterexample store yields. -/
def alarmTen : AlarmItem :=
  { name := "ten", time := "오전 10:00", eventTime := none, message := "m" }

/-- Lookup of a destination's group: the contents stored under key `k`, the
empty list when the key is absent (JS `map.get(k) ?? []`). -/
def groupFind (groups : List (String × List Schedule)) (k : String) : List Schedule :=
  match groups.find? (fun g => g.1 = k) with
  | some g => g.2
  | none => []

/-- The per-group body of the summary loop: `none` when the group has neither
a today alarm nor a today event (the `continue`), the digest triple
otherwise.  `sendDailySummary` is definitionally the `filterMap` of this
function over the grouped enabled records. -/
def digestOf (kstNow : Int) (tDow tDate tMon : Nat) (g : String × List Schedule) :
    Option (String × List AlarmItem × List EventItem) :=
  if (buildItems kstNow tDow tDate tMon g.2).1.length = 0
      ∧ (buildItems kstNow tDow tDate tMon g.2).2.length = 0 then none
  else some (g.1, (buildItems kstNow tDow tDate tMon g.2).1.mergeSort timeLe,
    (buildItems kstNow tDow tDate tMon g.2).2)

/-! ## Registry and store lemmas -/

theorem mem_mapSet {m : List Nat} {id a : Nat} :
    a ∈ mapSet m id ↔ a ∈ m ∨ a = id := by
  unfold mapSet
  by_cases h : id ∈ m
  · rw [if_pos h]
    constructor
    · exact Or.inl
    · rintro (ha | rfl)
      · exact ha
      · exact h
  · rw [if_neg h]
    simp

theorem mem_mapDelete {m : List Nat} {id a : Nat} :
    a ∈ mapDelete m id ↔ a ∈ m ∧ a ≠ id := by
  simp [mapDelete, List.mem_filter]

theorem mapDelete_eq_self {m : List Nat} {id : Nat} (h : id ∉ m) :
    mapDelete m id = m := by
  apply List.filter_eq_self.mpr
  intro a ha
  simp only [decide_eq_true_eq]
  rintro rfl
  exact h ha

theorem nodup_mapSet_left {c t : List Nat} {id : Nat}
    (h : (c ++ t).Nodup) (hid : id ∉ t) : (mapSet c id ++ t).Nodup := by
  unfold mapSet
  split
  · exact h
  · rename_i hc
    rw [List.append_assoc]
    rw [List.nodup_append] at h ⊢
    obtain ⟨hcn, htn, hdisj⟩ := h
    refine ⟨hcn, ?_, ?_⟩
    · simpa [List.nodup_cons] using ⟨hid, htn⟩
    · intro a hac hat
      rcases List.mem_append.mp hat with ha | hat'
      · rcases List.mem_singleton.mp ha with rfl
        exact hc hac
      · exact hdisj hac hat'

theorem nodup_mapSet_right {c t : List Nat} {id : Nat}
    (h : (c ++ t).Nodup) (hid : id ∉ c) : (c ++ mapSet t id).Nodup := by
  unfold mapSet
  split
  · exact h
  · rename_i ht
    rw [List.nodup_append] at h
    obtain ⟨hcn, htn, hdisj⟩ := h
    rw [List.nodup_append]
    refine ⟨hcn, ?_, ?_⟩
    · rw [List.nodup_append]
      refine ⟨htn, List.nodup_singleton id, ?_⟩
      intro a hat ha
      rcases List.mem_singleton.mp ha with rfl
      exact ht hat
    · intro a hac hat
      rcases List.mem_append.mp hat with hat' | ha
      · exact hdisj hac hat'
      · rcases List.mem_singleton.mp ha with rfl
        exact hid hac

theorem nodup_mapDelete {c t : List Nat} (id : Nat) (h : (c ++ t).Nodup) :
    (mapDelete c id ++ mapDelete t id).Nodup :=
  ((List.filter_sublist _).append (List.filter_sublist _)).nodup h

theorem applyUpdate_id (r : Schedule) (u : UpdateData) : (applyUpdate r u).id = r.id := rfl

theorem applyUpdate_type (r : Schedule) (u : UpdateData) :
    (applyUpdate r u).type = r.type := rfl

theorem storeIds_storeUpdate (store : List Schedule) (id : Nat) (u : UpdateData) :
    storeIds (storeUpdate store id u) = storeIds store := by
  simp only [storeIds, storeUpdate, List.map_map]
  apply List.map_congr_left
  intro r _
  by_cases h : r.id = id <;> simp [h, applyUpdate_id]

theorem mem_storeUpdate_of_ne {store : List Schedule} {r : Schedule} {id : Nat}
    (u : UpdateData) (hr : r ∈ store) (hne : r.id ≠ id) :
    r ∈ storeUpdate store id u := by
  have : (if r.id = id then applyUpdate r u else r) = r := if_neg hne
  exact this ▸ List.mem_map_of_mem _ hr

theorem storeFind_storeUpdate (store : List Schedule) (id : Nat) (u : UpdateData) :
    storeFind (storeUpdate store id u) id
      = (storeFind store id).map (fun r => applyUpdate r u) := by
  induction store with
  | nil => rfl
  | cons a l ih =>
    by_cases h : a.id = id
    · simp [storeFind, storeUpdate, List.find?_cons, h, applyUpdate_id]
    · have hd : (decide (a.id = id)) = false := decide_eq_false h
      simp only [storeFind, storeUpdate, List.map_cons, if_neg h, List.find?_cons, hd] at *
      exact ih

theorem storeFind_mem {store : List Schedule} {id : Nat} {r : Schedule}
    (h : storeFind store id = some r) : r ∈ store ∧ r.id = id := by
  refine ⟨List.mem_of_find?_eq_some h, ?_⟩
  have := List.find?_some h
  simpa using this

theorem store_unique {store : List Schedule} (hN : (storeIds store).Nodup)
    {r r' : Schedule} (hr : r ∈ store) (hr' : r' ∈ store) (h : r.id = r'.id) : r = r' :=
  List.inj_on_of_nodup_map hN hr hr' h

theorem storeFind_eq_some_of_mem {store : List Schedule} (hN : (storeIds store).Nodup)
    {r : Schedule} (hr : r ∈ store) : storeFind store r.id = some r := by
  have hex : (store.find? (fun x => x.id = r.id)).isSome := by
    rw [List.find?_isSome]
    exact ⟨r, hr, by simp⟩
  obtain ⟨x, hx⟩ := Option.isSome_iff_exists.mp hex
  have hx' : storeFind store r.id = some x := hx
  obtain ⟨hxm, hxid⟩ := storeFind_mem hx'
  rw [hx', store_unique hN hxm hr hxid]

theorem stopJob_store (s : SchedState) (id : Nat) : (stopJob s id).store = s.store := rfl

theorem mem_stopJob_reg {s : SchedState} {id a : Nat} :
    a ∈ (stopJob s id).cronJobs ++ (stopJob s id).timers
      ↔ a ∈ s.cronJobs ++ s.timers ∧ a ≠ id := by
  simp only [stopJob, List.mem_append, mem_mapDelete]
  tauto

theorem stopJob_eq_self {s : SchedState} {id : Nat}
    (hc : id ∉ s.cronJobs) (ht : id ∉ s.timers) : stopJob s id = s := by
  unfold stopJob
  rw [mapDelete_eq_self hc, mapDelete_eq_self ht]

/-! ## Invariant preservation -/

theorem inv_stopJob {s : SchedState} (h : Inv s) (id : Nat) : Inv (stopJob s id) := by
  refine ⟨nodup_mapDelete id h.regOk, h.idsNodup, ?_⟩
  intro k hk
  exact h.liveEnabled k (mem_stopJob_reg.mp hk).1

theorem inv_startCronJob {env : Env} {sched : Schedule} {s : SchedState} (h : Inv s)
    (hrec : ∃ r ∈ s.store, r.id = sched.id ∧ r.enabled = true)
    (ht : sched.id ∉ s.timers) : Inv (startCronJob env sched s) := by
  unfold startCronJob
  split
  · refine ⟨nodup_mapSet_left h.regOk ht, h.idsNodup, ?_⟩
    intro k hk
    rcases List.mem_append.mp hk with hk | hk
    · rcases mem_mapSet.mp hk with hk | rfl
      · exact h.liveEnabled k (List.mem_append.mpr (Or.inl hk))
      · exact hrec
    · exact h.liveEnabled k (List.mem_append.mpr (Or.inr hk))
  · exact h

theorem inv_startTimer {env : Env} {sched : Schedule} {s : SchedState} (h : Inv s)
    (hrec : ∃ r ∈ s.store, r.id = sched.id ∧ r.enabled = true)
    (hc : sched.id ∉ s.cronJobs) : Inv (startTimer env sched s).1 := by
  unfold startTimer
  cases hsa : sched.scheduledAt with
  | none => exact h
  | some t =>
    dsimp only
    split
    · exact h
    · refine ⟨nodup_mapSet_right h.regOk hc, h.idsNodup, ?_⟩
      intro k hk
      rcases List.mem_append.mp hk with hk | hk
      · exact h.liveEnabled k (List.mem_append.mpr (Or.inl hk))
      · rcases mem_mapSet.mp hk with hk | rfl
        · exact h.liveEnabled k (List.mem_append.mpr (Or.inr hk))
        · exact hrec

theorem not_live_of_fresh {s : SchedState} (h : Inv s) {id : Nat}
    (hfresh : ∀ r ∈ s.store, r.id ≠ id) :
    id ∉ s.cronJobs ++ s.timers := by
  intro hmem
  obtain ⟨r, hr, hrid, _⟩ := h.liveEnabled id hmem
  exact hfresh r hr hrid

theorem not_live_of_disabled {s : SchedState} (h : Inv s) {r : Schedule}
    (hr : r ∈ s.store) (hdis : r.enabled = false) :
    r.id ∉ s.cronJobs ++ s.timers := by
  intro hmem
  obtain ⟨r', hr', hrid, hen⟩ := h.liveEnabled r.id hmem
  have : r' = r := store_unique h.idsNodup hr' hr hrid
  rw [this, hdis] at hen
  exact Bool.false_ne_true hen

theorem inv_create {env : Env} {newId : Nat} {dto : CreateDto} {s : SchedState}
    (h : Inv s) (hfresh : ∀ r ∈ s.store, r.id ≠ newId) :
    Inv (create env newId dto s).1 := by
  have hnl := not_live_of_fresh h hfresh
  unfold create
  split
  · exact h
  · dsimp only
    set sched := mkNewSchedule env newId dto with hsched
    set s1 : SchedState := { s with store := s.store ++ [sched] } with hs1
    have hid : sched.id = newId := rfl
    have h1 : Inv s1 := by
      refine ⟨h.regOk, ?_, ?_⟩
      · simp only [hs1, storeIds, List.map_append, List.map_cons, List.map_nil]
        rw [List.nodup_append]
        refine ⟨h.idsNodup, List.nodup_singleton _, ?_⟩
        intro a ha hb
        rcases List.mem_singleton.mp hb with rfl
        obtain ⟨r, hr, hrid⟩ := List.mem_map.mp ha
        exact hfresh r hr (by rw [hrid])
      · intro k hk
        obtain ⟨r, hr, hrid, hen⟩ := h.liveEnabled k hk
        exact ⟨r, List.mem_append_left _ hr, hrid, hen⟩
    have hrec : ∃ r ∈ s1.store, r.id = sched.id ∧ r.enabled = true :=
      ⟨sched, List.mem_append_right _ (List.mem_singleton_self _), rfl, rfl⟩
    have hlt : sched.id ∉ s1.timers := fun hm =>
      hnl (hid ▸ List.mem_append.mpr (Or.inr hm))
    have hlc : sched.id ∉ s1.cronJobs := fun hm =>
      hnl (hid ▸ List.mem_append.mpr (Or.inl hm))
    split
    · exact inv_startCronJob h1 hrec hlt
    · split
      · rcases hst : startTimer env sched s1 with ⟨s2, e?⟩
        have hi := @inv_startTimer env sched _ h1 hrec hlc
        rw [hst] at hi
        cases e? <;> exact hi
      · exact h1

theorem findById_ok {store : List Schedule} {id : Nat} {r : Schedule}
    (h : findById store id = .ok r) : storeFind store id = some r := by
  unfold findById at h
  cases hs : storeFind store id with
  | none => rw [hs] at h; cases h
  | some x => rw [hs] at h; cases h; rfl

theorem startCronJob_store (env : Env) (sched : Schedule) (s : SchedState) :
    (startCronJob env sched s).store = s.store := by
  unfold startCronJob; split <;> rfl

theorem startCronJob_timers (env : Env) (sched : Schedule) (s : SchedState) :
    (startCronJob env sched s).timers = s.timers := by
  unfold startCronJob; split <;> rfl

theorem startTimer_store (env : Env) (sched : Schedule) (s : SchedState) :
    (startTimer env sched s).1.store = s.store := by
  unfold startTimer
  cases sched.scheduledAt with
  | none => rfl
  | some t => dsimp only; split <;> rfl

theorem startTimer_cronJobs (env : Env) (sched : Schedule) (s : SchedState) :
    (startTimer env sched s).1.cronJobs = s.cronJobs := by
  unfold startTimer
  cases sched.scheduledAt with
  | none => rfl
  | some t => dsimp only; split <;> rfl

theorem startTimer_of_future {env : Env} {sched : Schedule} {s : SchedState} {t : Int}
    (hsa : sched.scheduledAt = some t) (hft : ¬ t ≤ env.now) :
    (startTimer env sched s).1 = { s with timers := mapSet s.timers sched.id } := by
  unfold startTimer
  rw [hsa]
  dsimp only
  rw [if_neg (by omega)]

theorem applyUpdate_enabled_some (r : Schedule) (b : Bool) :
    (applyUpdate r { enabled := some b }).enabled = b := rfl

theorem inv_update {env : Env} {id : Nat} {dto : UpdateData} {s : SchedState}
    (h : Inv s) : Inv (update env id dto s).1 := by
  unfold update
  cases hf : findById s.store id with
  | error e => exact h
  | ok existing =>
    dsimp only
    split
    · exact h
    · have h1 : Inv (stopJob s id) := inv_stopJob h id
      have hnc : id ∉ (stopJob s id).cronJobs := by
        simp [stopJob, mem_mapDelete]
      have hnt : id ∉ (stopJob s id).timers := by
        simp [stopJob, mem_mapDelete]
      set s1 := stopJob s id with hs1
      set s2 : SchedState := { s1 with store := storeUpdate s1.store id dto } with hs2
      have h2 : Inv s2 := by
        refine ⟨h1.regOk, ?_, ?_⟩
        · show (storeIds (storeUpdate s1.store id dto)).Nodup
          rw [storeIds_storeUpdate]
          exact h1.idsNodup
        · intro k hk
          obtain ⟨r, hr, hrid, hen⟩ := h1.liveEnabled k hk
          have hkne : k ≠ id := by
            have := mem_stopJob_reg.mp (show k ∈ (stopJob s id).cronJobs ++ (stopJob s id).timers from hk)
            exact this.2
          exact ⟨r, mem_storeUpdate_of_ne dto hr (by rw [hrid]; exact hkne), hrid, hen⟩
      cases hfind : storeFind s2.store id with
      | none => exact h2
      | some updated =>
        dsimp only
        obtain ⟨hupdm, hupdid⟩ := storeFind_mem hfind
        split
        · rename_i hen
          split
          · exact inv_startCronJob h2 ⟨updated, hupdm, rfl, hen⟩ (by rw [hupdid]; exact hnt)
          · split
            · split
              · exact inv_startTimer h2 ⟨updated, hupdm, rfl, hen⟩ (by rw [hupdid]; exact hnc)
              · refine ⟨h2.regOk, ?_, ?_⟩
                · show (storeIds (storeUpdate s2.store id _)).Nodup
                  rw [storeIds_storeUpdate]
                  exact h2.idsNodup
                · intro k hk
                  obtain ⟨r, hr, hrid, hren⟩ := h2.liveEnabled k hk
                  have hkne : k ≠ id := by
                    have := mem_stopJob_reg.mp (show k ∈ (stopJob s id).cronJobs ++ (stopJob s id).timers from hk)
                    exact this.2
                  exact ⟨r, mem_storeUpdate_of_ne _ hr (by rw [hrid]; exact hkne), hrid, hren⟩
            · exact h2
        · exact h2

theorem inv_delete {id : Nat} {s : SchedState} (h : Inv s) :
    Inv (deleteSchedule id s).1 := by
  unfold deleteSchedule
  cases hf : findById s.store id with
  | error e => exact h
  | ok r =>
    dsimp only
    have h1 : Inv (stopJob s id) := inv_stopJob h id
    refine ⟨h1.regOk, ?_, ?_⟩
    · exact ((List.filter_sublist _).map _).nodup h1.idsNodup
    · intro k hk
      obtain ⟨r', hr', hrid, hen⟩ := h1.liveEnabled k hk
      have hkne : k ≠ id :=
        (mem_stopJob_reg.mp
          (show k ∈ (stopJob s id).cronJobs ++ (stopJob s id).timers from hk)).2
      refine ⟨r', ?_, hrid, hen⟩
      apply List.mem_filter.mpr
      refine ⟨hr', ?_⟩
      simp only [decide_eq_true_eq]
      rw [hrid]
      exact hkne

theorem inv_toggle {env : Env} {id : Nat} {s : SchedState} (h : Inv s) :
    Inv (toggleEnabled env id s).1 := by
  unfold toggleEnabled
  cases hf : findById s.store id with
  | error e => exact h
  | ok sched =>
    dsimp only
    obtain ⟨hsm, hsid⟩ := storeFind_mem (findById_ok hf)
    have h1 : Inv (stopJob s id) := inv_stopJob h id
    have hnc : id ∉ (stopJob s id).cronJobs := by simp [stopJob, mem_mapDelete]
    have hnt : id ∉ (stopJob s id).timers := by simp [stopJob, mem_mapDelete]
    set s1 := stopJob s id with hs1
    have hstore1 : s1.store = s.store := rfl
    have hfin : ∀ (b : Bool) (s2 : SchedState), s2.store = s.store →
        (s2.cronJobs ++ s2.timers).Nodup →
        (∀ k ∈ s2.cronJobs ++ s2.timers, k ≠ id →
            ∃ r ∈ s.store, r.id = k ∧ r.enabled = true) →
        (id ∈ s2.cronJobs ++ s2.timers → b = true) →
        Inv { s2 with store := storeUpdate s2.store id { enabled := some b } } := by
      intro b s2 hst hreg hexc hide
      refine ⟨hreg, ?_, ?_⟩
      · show (storeIds (storeUpdate s2.store id _)).Nodup
        rw [storeIds_storeUpdate, hst]
        exact h.idsNodup
      · intro k hk
        by_cases hkid : k = id
        · subst hkid
          refine ⟨applyUpdate sched { enabled := some b }, ?_, ?_, ?_⟩
          · rw [hst]
            have heq : (if sched.id = k then applyUpdate sched { enabled := some b } else sched)
                = applyUpdate sched { enabled := some b } := if_pos hsid
            exact heq ▸ List.mem_map_of_mem _ hsm
          · rw [applyUpdate_id, hsid]
          · rw [applyUpdate_enabled_some]
            exact hide hk
        · obtain ⟨r, hr, hrid, hen⟩ := hexc k hk hkid
          refine ⟨r, ?_, hrid, hen⟩
          rw [hst]
          exact mem_storeUpdate_of_ne _ hr (by rw [hrid]; exact hkid)
    have hide1 : ∀ b : Bool, id ∈ s1.cronJobs ++ s1.timers → b = true := by
      intro b hm
      rcases List.mem_append.mp hm with hm | hm
      · exact absurd hm hnc
      · exact absurd hm hnt
    have hexc1 : ∀ k ∈ s1.cronJobs ++ s1.timers, k ≠ id →
        ∃ r ∈ s.store, r.id = k ∧ r.enabled = true := by
      intro k hk _
      exact h1.liveEnabled k hk
    cases hse : sched.enabled with
    | true =>
      simp only [hse, Bool.not_true]
      rw [if_neg (show ¬(false = true) by decide)]
      dsimp only
      cases hfind : storeFind (storeUpdate s1.store id { enabled := some false }) id <;>
        exact hfin false s1 hstore1 h1.regOk hexc1 (hide1 false)
    | false =>
      simp only [hse, Bool.not_false]
      rw [if_true]
      cases hty : sched.type with
      | fixed =>
        rw [if_pos (show (SchedType.fixed == SchedType.fixed) = true from rfl)]
        have hreg2 : ((startCronJob env sched s1).cronJobs
            ++ (startCronJob env sched s1).timers).Nodup := by
          unfold startCronJob
          split
          · exact nodup_mapSet_left h1.regOk (by rw [hsid]; exact hnt)
          · exact h1.regOk
        have hst2 : (startCronJob env sched s1).store = s.store := startCronJob_store ..
        have hexc2 : ∀ k ∈ (startCronJob env sched s1).cronJobs
            ++ (startCronJob env sched s1).timers, k ≠ id →
            ∃ r ∈ s.store, r.id = k ∧ r.enabled = true := by
          intro k hk hkne
          refine hexc1 k ?_ hkne
          revert hk
          unfold startCronJob
          split
          · dsimp only
            intro hk
            rcases List.mem_append.mp hk with hk | hk
            · rcases mem_mapSet.mp hk with hk | rfl
              · exact List.mem_append.mpr (Or.inl hk)
              · exact absurd hsid hkne
            · exact List.mem_append.mpr (Or.inr hk)
          · intro hk
            exact hk
        dsimp only
        cases hfind : storeFind (storeUpdate (startCronJob env sched s1).store id
            { enabled := some true }) id <;>
          exact hfin true _ hst2 hreg2 hexc2 (fun _ => rfl)
      | manual =>
        rw [if_neg (show ¬(SchedType.manual == SchedType.fixed) = true by decide),
            if_pos (show (SchedType.manual == SchedType.manual) = true from rfl)]
        cases hsa : sched.scheduledAt with
        | none => exact h1
        | some t =>
          dsimp only
          by_cases hfut : t ≤ env.now
          · rw [if_pos hfut]
            exact h1
          · rw [if_neg hfut, startTimer_of_future hsa hfut]
            have hreg2 : (s1.cronJobs ++ mapSet s1.timers sched.id).Nodup :=
              nodup_mapSet_right h1.regOk (by rw [hsid]; exact hnc)
            have hexc2 : ∀ k ∈ s1.cronJobs ++ mapSet s1.timers sched.id, k ≠ id →
                ∃ r ∈ s.store, r.id = k ∧ r.enabled = true := by
              intro k hk hkne
              refine hexc1 k ?_ hkne
              rcases List.mem_append.mp hk with hk | hk
              · exact List.mem_append.mpr (Or.inl hk)
              · rcases mem_mapSet.mp hk with hk | rfl
                · exact List.mem_append.mpr (Or.inr hk)
                · exact absurd hsid hkne
            dsimp only
            cases hfind : storeFind (storeUpdate s1.store id { enabled := some true }) id <;>
              exact hfin true { s1 with timers := mapSet s1.timers sched.id }
                hstore1 hreg2 hexc2 (fun _ => rfl)
      | event =>
        rw [if_neg (show ¬(SchedType.event == SchedType.fixed) = true by decide),
            if_neg (show ¬(SchedType.event == SchedType.manual) = true by decide)]
        dsimp only
        cases hfind : storeFind (storeUpdate s1.store id { enabled := some true }) id <;>
          exact hfin true s1 hstore1 h1.regOk hexc1 (fun _ => rfl)

theorem startTimer_pair_of_future {env : Env} {sched : Schedule} {s : SchedState} {t : Int}
    (hsa : sched.scheduledAt = some t) (hft : ¬ t ≤ env.now) :
    startTimer env sched s = ({ s with timers := mapSet s.timers sched.id }, none) := by
  unfold startTimer
  rw [hsa]
  dsimp only
  rw [if_neg (by omega)]

theorem inv_restoreGo (env : Env) :
    ∀ (rest : List Schedule) (s : SchedState), Inv s →
      (∀ r ∈ rest, r ∈ s.store) →
      (storeIds rest).Nodup →
      (∀ r ∈ rest, r.id ∉ s.cronJobs ++ s.timers) →
      Inv (restoreGo env rest s).1 := by
  intro rest
  induction rest with
  | nil =>
    intro s hInv _ _ _
    exact hInv
  | cons hd tl ih =>
    intro s hInv hsub hids hnl
    have hhdmem : hd ∈ s.store := hsub hd (List.mem_cons_self hd tl)
    have hhdnl : hd.id ∉ s.cronJobs ++ s.timers := hnl hd (List.mem_cons_self hd tl)
    have hhdnc : hd.id ∉ s.cronJobs := fun hm => hhdnl (List.mem_append.mpr (Or.inl hm))
    have hhdnt : hd.id ∉ s.timers := fun hm => hhdnl (List.mem_append.mpr (Or.inr hm))
    have hcons := List.nodup_cons.mp (show (hd.id :: storeIds tl).Nodup from hids)
    have hids' : (storeIds tl).Nodup := hcons.2
    have hidhd : hd.id ∉ storeIds tl := hcons.1
    have hne : ∀ r ∈ tl, r.id ≠ hd.id := by
      intro r hr heq
      exact hidhd (heq ▸ List.mem_map_of_mem _ hr)
    have hsub' : ∀ r ∈ tl, r ∈ s.store := fun r hr => hsub r (List.mem_cons_of_mem _ hr)
    have hnl' : ∀ r ∈ tl, r.id ∉ s.cronJobs ++ s.timers :=
      fun r hr => hnl r (List.mem_cons_of_mem _ hr)
    unfold restoreGo restoreStep
    cases hen : hd.enabled with
    | false =>
      simp only [hen, Bool.not_false]
      rw [if_true]
      exact ih s hInv hsub' hids' hnl'
    | true =>
      simp only [hen, Bool.not_true]
      rw [if_neg (show ¬(false = true) by decide)]
      cases hty : hd.type with
      | fixed =>
        rw [if_pos (show (SchedType.fixed == SchedType.fixed) = true from rfl)]
        dsimp only
        apply ih (startCronJob env hd s)
        · exact inv_startCronJob hInv ⟨hd, hhdmem, rfl, hen⟩ hhdnt
        · intro r hr
          rw [startCronJob_store]
          exact hsub' r hr
        · exact hids'
        · intro r hr hm
          apply hnl' r hr
          revert hm
          unfold startCronJob
          split
          · dsimp only
            intro hm
            rcases List.mem_append.mp hm with hm | hm
            · rcases mem_mapSet.mp hm with hm | heq
              · exact List.mem_append.mpr (Or.inl hm)
              · exact absurd heq (hne r hr)
            · exact List.mem_append.mpr (Or.inr hm)
          · intro hm
            exact hm
      | manual =>
        rw [if_neg (show ¬(SchedType.manual == SchedType.fixed) = true by decide),
            if_pos (show (SchedType.manual == SchedType.manual) = true from rfl)]
        cases hsa : hd.scheduledAt with
        | none => exact hInv
        | some t =>
          dsimp only
          by_cases hfut : env.now < t
          · rw [if_pos hfut, startTimer_pair_of_future hsa (by omega)]
            dsimp only
            apply ih { s with timers := mapSet s.timers hd.id }
            · refine ⟨nodup_mapSet_right hInv.regOk hhdnc, hInv.idsNodup, ?_⟩
              intro k hk
              rcases List.mem_append.mp hk with hk | hk
              · exact hInv.liveEnabled k (List.mem_append.mpr (Or.inl hk))
              · rcases mem_mapSet.mp hk with hk | rfl
                · exact hInv.liveEnabled k (List.mem_append.mpr (Or.inr hk))
                · exact ⟨hd, hhdmem, rfl, hen⟩
            · exact hsub'
            · exact hids'
            · intro r hr hm
              rcases List.mem_append.mp hm with hm | hm
              · exact hnl' r hr (List.mem_append.mpr (Or.inl hm))
              · rcases mem_mapSet.mp hm with hm | heq
                · exact hnl' r hr (List.mem_append.mpr (Or.inr hm))
                · exact absurd heq (hne r hr)
          · rw [if_neg hfut]
            dsimp only
            apply ih { s with store := storeUpdate s.store hd.id { enabled := some false } }
            · refine ⟨hInv.regOk, ?_, ?_⟩
              · show (storeIds (storeUpdate s.store hd.id _)).Nodup
                rw [storeIds_storeUpdate]
                exact hInv.idsNodup
              · intro k hk
                obtain ⟨r, hr, hrid, hren⟩ := hInv.liveEnabled k hk
                have hkne : k ≠ hd.id := by
                  rintro rfl
                  exact hhdnl hk
                exact ⟨r, mem_storeUpdate_of_ne _ hr (by rw [hrid]; exact hkne), hrid, hren⟩
            · intro r hr
              exact mem_storeUpdate_of_ne _ (hsub' r hr) (hne r hr)
            · exact hids'
            · exact hnl'
      | event =>
        rw [if_neg (show ¬(SchedType.event == SchedType.fixed) = true by decide),
            if_neg (show ¬(SchedType.event == SchedType.manual) = true by decide)]
        exact ih s hInv hsub' hids' hnl'

theorem inv_restore_boot (env : Env) (store : List Schedule)
    (h : (storeIds store).Nodup) :
    Inv (restoreSchedules env { store := store, cronJobs := [], timers := [] }).1 := by
  unfold restoreSchedules
  refine inv_restoreGo env store _ ⟨?_, h, ?_⟩ (fun r hr => hr) h ?_
  · simp
  · intro k hk
    simp at hk
  · intro r hr hm
    simp at hm

theorem inv_fire {env : Env} {ok : Bool} {sched : Schedule} {s : SchedState}
    (h : Inv s) (hlive : sched.id ∈ s.timers) :
    Inv (timerFire env ok sched s).1 := by
  unfold timerFire
  dsimp only
  refine ⟨?_, ?_, ?_⟩
  · exact ((List.Sublist.refl _).append (List.filter_sublist _)).nodup h.regOk
  · show (storeIds (storeUpdate s.store sched.id _)).Nodup
    rw [storeIds_storeUpdate]
    exact h.idsNodup
  · intro k hk
    rcases List.mem_append.mp hk with hk | hk
    · have hkne : k ≠ sched.id := by
        rintro rfl
        exact (List.nodup_append.mp h.regOk).2.2 hk hlive
      obtain ⟨r, hr, hrid, hen⟩ := h.liveEnabled k (List.mem_append.mpr (Or.inl hk))
      exact ⟨r, mem_storeUpdate_of_ne _ hr (by rw [hrid]; exact hkne), hrid, hen⟩
    · obtain ⟨hk', hkne⟩ := mem_mapDelete.mp hk
      obtain ⟨r, hr, hrid, hen⟩ := h.liveEnabled k (List.mem_append.mpr (Or.inr hk'))
      exact ⟨r, mem_storeUpdate_of_ne _ hr (by rw [hrid]; exact hkne), hrid, hen⟩

theorem inv_of_reach {s : SchedState} (h : Reach s) : Inv s := by
  induction h with
  | boot store hn =>
    refine ⟨by simp, hn, ?_⟩
    intro k hk
    simp at hk
  | restore env store hn => exact inv_restore_boot env store hn
  | createOp env newId dto s hs hfresh ih => exact inv_create ih hfresh
  | updateOp env id dto s hs ih => exact inv_update ih
  | toggleOp env id s hs ih => exact inv_toggle ih
  | deleteOp id s hs ih => exact inv_delete ih
  | fire env ok sched s hs hlive ih => exact inv_fire ih hlive

/-- C1: at every reachable state of the scheduler, the live registry — the
union of the cron-job map and the one-shot-timer map — contains at most one
live entry per schedule id: every sequence of create / update /
toggleEnabled / delete operations after the start-up restore, interleaved
with timer fires, keeps the combined key list duplicate-free, because each
mutating operation cancels any existing entry for the id (`stopJob`) before
conditionally registering a new one. -/
theorem c1_registry_at_most_one_live_entry {s : SchedState} (h : Reach s) :
    (s.cronJobs ++ s.timers).Nodup :=
  (inv_of_reach h).regOk

/-- Witness for C1: a concrete boot-restore-toggle run reaches a state whose
registry has no duplicate id. -/
theorem c1_witness :
    (((toggleEnabled envAcc 1 (restoreSchedules envAcc
        { store := storeScenC, cronJobs := [], timers := [] }).1).1).cronJobs
      ++ ((toggleEnabled envAcc 1 (restoreSchedules envAcc
        { store := storeScenC, cronJobs := [], timers := [] }).1).1).timers).Nodup :=
  c1_registry_at_most_one_live_entry
    (Reach.toggleOp envAcc 1 _ (Reach.restore envAcc storeScenC (by decide)))

/-- C2: whenever a one-shot timer fires, dispatch is attempted exactly once,
and afterwards — whether the dispatch succeeded (`ok = true`) or failed —
the stored record of the schedule's id is `enabled = false`, the timer
handle is gone from the registry, and the resulting state does not depend on
the dispatch outcome (its failure is caught inside
`sendScheduledMessage`). -/
theorem c2_timer_fire_dispatch_once_then_disable (env : Env) (ok : Bool)
    (sched : Schedule) (s : SchedState) :
    (timerFire env ok sched s).2.length = 1
    ∧ sched.id ∉ (timerFire env ok sched s).1.timers
    ∧ (∀ r ∈ (timerFire env ok sched s).1.store, r.id = sched.id → r.enabled = false)
    ∧ (timerFire env ok sched s).1 = (timerFire env true sched s).1 := by
  refine ⟨rfl, ?_, ?_, rfl⟩
  · intro hm
    exact (mem_mapDelete.mp hm).2 rfl
  · intro r hr hrid
    simp only [timerFire, storeUpdate] at hr
    obtain ⟨x, hx, hxe⟩ := List.mem_map.mp hr
    by_cases h : x.id = sched.id
    · rw [if_pos h] at hxe
      rw [← hxe]
      exact applyUpdate_enabled_some x false
    · rw [if_neg h] at hxe
      rw [← hxe] at hrid
      exact absurd hrid h

/-- C3: for a Manual schedule, `create` with a non-future instant, `update`
changing `scheduledAt` to a non-future instant, and `toggleEnabled`
re-enabling a record whose instant is non-future all fail with the
`BadRequestException` (the spec's `PastScheduledTime`), and the state —
store and live registry — is exactly the state before the call (for the
toggle this uses the reachability invariant: a disabled record has no live
entry, so its pre-throw `stopJob` is a no-op). -/
theorem c3_past_time_rejected_without_mutation :
    (∀ (env : Env) (newId : Nat) (dto : CreateDto) (s : SchedState) (t : Int),
        dto.type = .manual → dto.scheduledAt = some t → t ≤ env.now →
        create env newId dto s = (s, .error .badRequest))
    ∧ (∀ (env : Env) (id : Nat) (dto : UpdateData) (s : SchedState) (r : Schedule) (t : Int),
        storeFind s.store id = some r → r.type = .manual →
        dto.scheduledAt = some t → t ≤ env.now →
        update env id dto s = (s, .error .badRequest))
    ∧ (∀ (env : Env) (id : Nat) (s : SchedState) (r : Schedule) (t : Int),
        Inv s → storeFind s.store id = some r → r.enabled = false →
        r.type = .manual → r.scheduledAt = some t → t ≤ env.now →
        toggleEnabled env id s = (s, .error .badRequest)) := by
  refine ⟨?_, ?_, ?_⟩
  · intro env newId dto s t hty hsa hle
    unfold create
    split
    · rfl
    · rename_i hcond
      exact absurd (by simp [hty, hsa, hle]) hcond
  · intro env id dto s r t hfind hty hsa hle
    have hok : findById s.store id = .ok r := by
      unfold findById
      rw [hfind]
    unfold update
    rw [hok]
    dsimp only
    split
    · rfl
    · rename_i hcond
      exact absurd (by simp [hty, hsa, hle]) hcond
  · intro env id s r t hInv hfind hdis hty hsa hle
    have hok : findById s.store id = .ok r := by
      unfold findById
      rw [hfind]
    have hs1 : stopJob s id = s := by
      have hnl := not_live_of_disabled hInv (storeFind_mem hfind).1 hdis
      rw [(storeFind_mem hfind).2] at hnl
      exact stopJob_eq_self (fun hm => hnl (List.mem_append.mpr (Or.inl hm)))
        (fun hm => hnl (List.mem_append.mpr (Or.inr hm)))
    unfold toggleEnabled
    rw [hok]
    dsimp only
    simp only [hdis, Bool.not_false]
    rw [if_true]
    simp only [hty]
    rw [if_neg (show ¬(SchedType.manual == SchedType.fixed) = true by decide),
        if_pos (show (SchedType.manual == SchedType.manual) = true from rfl)]
    rw [hsa]
    dsimp only
    rw [if_pos hle]
    dsimp only
    rw [hs1]

/-- Witness for C3: all three rejections at a concrete past instant leave
the concrete state untouched. -/
theorem c3_witness :
    create envAcc 7 { type := .manual, name := "w", message := "m", scheduledAt := some 500 }
        { store := [], cronJobs := [], timers := [] }
      = ({ store := [], cronJobs := [], timers := [] }, .error .badRequest)
    ∧ update envAcc 8 { scheduledAt := some 500 }
        { store := [recManual 8 2000], cronJobs := [], timers := [] }
      = ({ store := [recManual 8 2000], cronJobs := [], timers := [] }, .error .badRequest)
    ∧ toggleEnabled envAcc 8 { store := [recManualOff 8 500], cronJobs := [], timers := [] }
      = ({ store := [recManualOff 8 500], cronJobs := [], timers := [] }, .error .badRequest) :=
  ⟨c3_past_time_rejected_without_mutation.1 envAcc 7 _ _ 500 rfl rfl (by decide),
   c3_past_time_rejected_without_mutation.2.1 envAcc 8 _ _ (recManual 8 2000) 500
     (by decide) rfl rfl (by decide),
   c3_past_time_rejected_without_mutation.2.2 envAcc 8 _ (recManualOff 8 500) 500
     ⟨by decide, by decide, by decide⟩ (by decide) rfl rfl rfl (by decide)⟩

/-- C10: creating a fixed schedule whose cron string the job library rejects
(`new CronJob` throws, caught inside `startCronJob`) still persists the
record with `enabled = true` and returns it with no error, and registers no
live entry: the registries of the result are exactly those of the input
state, so the schedule silently never fires although it reports enabled. -/
theorem c10_rejected_cron_persists_enabled_without_job (env : Env) (newId : Nat)
    (dto : CreateDto) (s : SchedState)
    (hty : dto.type = .fixed)
    (hrej : env.cronAccepts dto.cron = false) :
    create env newId dto s
      = ({ s with store := s.store ++ [mkNewSchedule env newId dto] },
         .ok (mkNewSchedule env newId dto))
    ∧ (mkNewSchedule env newId dto).enabled = true := by
  refine ⟨?_, rfl⟩
  unfold create
  split
  · rename_i hcond
    rw [hty] at hcond
    simp at hcond
  · dsimp only
    rw [if_pos (show ((mkNewSchedule env newId dto).type == SchedType.fixed) = true by
      rw [show (mkNewSchedule env newId dto).type = dto.type from rfl, hty]
      rfl)]
    unfold startCronJob
    rw [if_neg (show ¬(env.cronAccepts (mkNewSchedule env newId dto).cron = true) by
      rw [show (mkNewSchedule env newId dto).cron = dto.cron from rfl, hrej]
      decide)]

/-- Witness for C10: a concrete rejected-cron creation returns the enabled
record and registers nothing. -/
theorem c10_witness :
    create envRej 9 { type := .fixed, name := "f", message := "m", cron := some "x" }
        { store := [], cronJobs := [], timers := [] }
      = ({ store := [] ++ [mkNewSchedule envRej 9
            { type := .fixed, name := "f", message := "m", cron := some "x" }],
           cronJobs := [], timers := [] },
         .ok (mkNewSchedule envRej 9
            { type := .fixed, name := "f", message := "m", cron := some "x" }))
    ∧ (mkNewSchedule envRej 9
        { type := .fixed, name := "f", message := "m", cron := some "x" }).enabled = true :=
  c10_rejected_cron_persists_enabled_without_job envRej 9 _ _ rfl rfl

theorem applyUpdate_enabledFalse (x : Schedule) :
    applyUpdate x { enabled := some false } = { x with enabled := false } := rfl

theorem restoreGo_spec (env : Env) :
    ∀ (rest : List Schedule) (s : SchedState),
      (storeIds s.store).Nodup →
      (∀ r ∈ rest, r ∈ s.store) →
      (storeIds rest).Nodup →
      (∀ r ∈ rest, r.id ∉ s.cronJobs ++ s.timers) →
      (∀ r ∈ rest, r.enabled = true → r.type = .fixed → env.cronAccepts r.cron = true) →
      (∀ r ∈ rest, r.enabled = true → r.type = .manual → r.scheduledAt.isSome) →
      (restoreGo env rest s).2 = none
      ∧ (restoreGo env rest s).1.cronJobs
          = s.cronJobs ++ storeIds (rest.filter (fun r => r.enabled && r.type == SchedType.fixed))
      ∧ (restoreGo env rest s).1.timers
          = s.timers ++ storeIds (rest.filter (fun r =>
              r.enabled && r.type == SchedType.manual
                && r.scheduledAt.any (fun t => env.now < t)))
      ∧ (restoreGo env rest s).1.store
          = s.store.map (fun x =>
              if x ∈ rest ∧ x.enabled = true ∧ x.type = SchedType.manual
                  ∧ x.scheduledAt.any (fun t => t ≤ env.now) = true
              then { x with enabled := false } else x) := by
  intro rest
  induction rest with
  | nil =>
    intro s _ _ _ _ _ _
    refine ⟨rfl, by simp [restoreGo, storeIds], by simp [restoreGo, storeIds], ?_⟩
    show s.store = _
    have hid : ∀ x ∈ s.store,
        (if x ∈ ([] : List Schedule) ∧ x.enabled = true ∧ x.type = SchedType.manual
            ∧ x.scheduledAt.any (fun t => t ≤ env.now) = true
          then { x with enabled := false } else x) = x := by
      intro x _
      rw [if_neg]
      rintro ⟨hmem, -⟩
      exact List.not_mem_nil x hmem
    rw [List.map_congr_left hid]
    simp
  | cons hd tl ih =>
    intro s hsn hsub hids hnl hcron hman
    have hhdmem : hd ∈ s.store := hsub hd (List.mem_cons_self hd tl)
    have hhdnl : hd.id ∉ s.cronJobs ++ s.timers := hnl hd (List.mem_cons_self hd tl)
    have hhdnc : hd.id ∉ s.cronJobs := fun hm => hhdnl (List.mem_append.mpr (Or.inl hm))
    have hhdnt : hd.id ∉ s.timers := fun hm => hhdnl (List.mem_append.mpr (Or.inr hm))
    have hcons := List.nodup_cons.mp (show (hd.id :: storeIds tl).Nodup from hids)
    have hids' : (storeIds tl).Nodup := hcons.2
    have hidhd : hd.id ∉ storeIds tl := hcons.1
    have hne : ∀ r ∈ tl, r.id ≠ hd.id := by
      intro r hr heq
      exact hidhd (heq ▸ List.mem_map_of_mem _ hr)
    have hnotl : hd ∉ tl := fun hm => hidhd (List.mem_map_of_mem _ hm)
    have hsub' : ∀ r ∈ tl, r ∈ s.store := fun r hr => hsub r (List.mem_cons_of_mem _ hr)
    have hnl' : ∀ r ∈ tl, r.id ∉ s.cronJobs ++ s.timers :=
      fun r hr => hnl r (List.mem_cons_of_mem _ hr)
    have hcron' : ∀ r ∈ tl, r.enabled = true → r.type = .fixed → env.cronAccepts r.cron = true :=
      fun r hr => hcron r (List.mem_cons_of_mem _ hr)
    have hman' : ∀ r ∈ tl, r.enabled = true → r.type = .manual → r.scheduledAt.isSome :=
      fun r hr => hman r (List.mem_cons_of_mem _ hr)
    have hmemiff : ∀ x ∈ s.store, x.id ≠ hd.id → (x ∈ hd :: tl ↔ x ∈ tl) := by
      intro x _ hx
      constructor
      · intro hm
        rcases List.mem_cons.mp hm with rfl | hm
        · exact absurd rfl hx
        · exact hm
      · exact List.mem_cons_of_mem _
    unfold restoreGo restoreStep
    cases hen : hd.enabled with
    | false =>
      simp only [hen, Bool.not_false]
      rw [if_true]
      obtain ⟨he, hc, ht, hst⟩ := ih s hsn hsub' hids' hnl' hcron' hman'
      refine ⟨he, ?_, ?_, ?_⟩
      · rw [hc, List.filter_cons_of_neg (by simp [hen])]
      · rw [ht, List.filter_cons_of_neg (by simp [hen])]
      · rw [hst]
        apply List.map_congr_left
        intro x hx
        by_cases hxid : x.id = hd.id
        · have hxeq : x = hd := store_unique hsn hx hhdmem hxid
          subst hxeq
          rw [if_neg (by rintro ⟨-, hxe, -⟩; rw [hen] at hxe; exact Bool.false_ne_true hxe),
            if_neg (by rintro ⟨-, hxe, -⟩; rw [hen] at hxe; exact Bool.false_ne_true hxe)]
        · exact if_congr (and_congr_left' (hmemiff x hx hxid).symm) rfl rfl
    | true =>
      simp only [hen, Bool.not_true]
      rw [if_neg (show ¬(false = true) by decide)]
      cases hty : hd.type with
      | fixed =>
        rw [if_pos (show (SchedType.fixed == SchedType.fixed) = true from rfl)]
        dsimp only
        have hacc : env.cronAccepts hd.cron = true :=
          hcron hd (List.mem_cons_self hd tl) hen hty
        have hstep : startCronJob env hd s = { s with cronJobs := s.cronJobs ++ [hd.id] } := by
          unfold startCronJob
          rw [if_pos hacc]
          unfold mapSet
          rw [if_neg hhdnc]
        rw [hstep]
        obtain ⟨he, hc, ht, hst⟩ := ih { s with cronJobs := s.cronJobs ++ [hd.id] }
          hsn hsub' hids'
          (by
            intro r hr hm
            rcases List.mem_append.mp hm with hm | hm
            · rcases List.mem_append.mp hm with hm | hm
              · exact hnl' r hr (List.mem_append.mpr (Or.inl hm))
              · exact hne r hr (List.mem_singleton.mp hm)
            · exact hnl' r hr (List.mem_append.mpr (Or.inr hm)))
          hcron' hman'
        refine ⟨he, ?_, ?_, ?_⟩
        · rw [hc, List.filter_cons_of_pos (by simp [hen, hty])]
          simp [storeIds, List.append_assoc]
        · rw [ht, List.filter_cons_of_neg (by simp [hen, hty])]
        · rw [hst]
          apply List.map_congr_left
          intro x hx
          by_cases hxid : x.id = hd.id
          · have hxeq : x = hd := store_unique hsn hx hhdmem hxid
            subst hxeq
            rw [if_neg (by rintro ⟨-, -, hxe, -⟩; rw [hty] at hxe; cases hxe),
              if_neg (by rintro ⟨-, -, hxe, -⟩; rw [hty] at hxe; cases hxe)]
          · exact if_congr (and_congr_left' (hmemiff x hx hxid).symm) rfl rfl
      | manual =>
        rw [if_neg (show ¬(SchedType.manual == SchedType.fixed) = true by decide),
            if_pos (show (SchedType.manual == SchedType.manual) = true from rfl)]
        obtain ⟨t, hsa⟩ := Option.isSome_iff_exists.mp
          (hman hd (List.mem_cons_self hd tl) hen hty)
        rw [hsa]
        dsimp only
        by_cases hfut : env.now < t
        · rw [if_pos hfut, startTimer_pair_of_future hsa (by omega)]
          dsimp only
          have htim : mapSet s.timers hd.id = s.timers ++ [hd.id] := by
            unfold mapSet
            rw [if_neg hhdnt]
          rw [htim]
          obtain ⟨he, hc, ht, hst⟩ := ih { s with timers := s.timers ++ [hd.id] }
            hsn hsub' hids'
            (by
              intro r hr hm
              rcases List.mem_append.mp hm with hm | hm
              · exact hnl' r hr (List.mem_append.mpr (Or.inl hm))
              · rcases List.mem_append.mp hm with hm | hm
                · exact hnl' r hr (List.mem_append.mpr (Or.inr hm))
                · exact hne r hr (List.mem_singleton.mp hm))
            hcron' hman'
          refine ⟨he, ?_, ?_, ?_⟩
          · rw [hc, List.filter_cons_of_neg (by simp [hty])]
          · rw [ht, List.filter_cons_of_pos (by simp [hen, hty, hsa]; omega)]
            simp [storeIds, List.append_assoc]
          · rw [hst]
            have hpast : ¬ (hd.scheduledAt.any (fun u => u ≤ env.now) = true) := by
              rw [hsa]
              simp
              omega
            apply List.map_congr_left
            intro x hx
            by_cases hxid : x.id = hd.id
            · have hxeq : x = hd := store_unique hsn hx hhdmem hxid
              subst hxeq
              rw [if_neg (by rintro ⟨-, -, -, hxe⟩; exact hpast hxe),
                if_neg (by rintro ⟨-, -, -, hxe⟩; exact hpast hxe)]
            · exact if_congr (and_congr_left' (hmemiff x hx hxid).symm) rfl rfl
        · rw [if_neg hfut]
          dsimp only
          have hsn2 : (storeIds (storeUpdate s.store hd.id { enabled := some false })).Nodup := by
            rw [storeIds_storeUpdate]
            exact hsn
          obtain ⟨he, hc, ht, hst⟩ := ih
            { s with store := storeUpdate s.store hd.id { enabled := some false } }
            hsn2
            (by
              intro r hr
              exact mem_storeUpdate_of_ne _ (hsub' r hr) (hne r hr))
            hids' hnl' hcron' hman'
          refine ⟨he, ?_, ?_, ?_⟩
          · rw [hc, List.filter_cons_of_neg (by simp [hty])]
          · rw [ht, List.filter_cons_of_neg (by
              simp only [hen, hty, hsa, Bool.true_and]
              simp
              omega)]
          · rw [hst]
            show (storeUpdate s.store hd.id { enabled := some false }).map _ = _
            rw [storeUpdate, List.map_map]
            apply List.map_congr_left
            intro x hx
            by_cases hxid : x.id = hd.id
            · have hxeq : x = hd := store_unique hsn hx hhdmem hxid
              subst hxeq
              simp only [Function.comp]
              rw [if_true, applyUpdate_enabledFalse]
              rw [if_neg (by
                rintro ⟨hm, -⟩
                exact hidhd (List.mem_map_of_mem (fun r => r.id) hm))]
              rw [if_pos ⟨List.mem_cons_self _ _, hen, hty, by rw [hsa]; simp; omega⟩]
            · simp only [Function.comp]
              rw [if_neg hxid]
              exact if_congr (and_congr_left' (hmemiff x hx hxid).symm) rfl rfl
      | event =>
        rw [if_neg (show ¬(SchedType.event == SchedType.fixed) = true by decide),
            if_neg (show ¬(SchedType.event == SchedType.manual) = true by decide)]
        obtain ⟨he, hc, ht, hst⟩ := ih s hsn hsub' hids' hnl' hcron' hman'
        refine ⟨he, ?_, ?_, ?_⟩
        · rw [hc, List.filter_cons_of_neg (by simp [hty])]
        · rw [ht, List.filter_cons_of_neg (by simp [hty])]
        · rw [hst]
          apply List.map_congr_left
          intro x hx
          by_cases hxid : x.id = hd.id
          · have hxeq : x = hd := store_unique hsn hx hhdmem hxid
            subst hxeq
            rw [if_neg (by rintro ⟨-, -, hxe, -⟩; rw [hty] at hxe; cases hxe),
              if_neg (by rintro ⟨-, -, hxe, -⟩; rw [hty] at hxe; cases hxe)]
          · exact if_congr (and_congr_left' (hmemiff x hx hxid).symm) rfl rfl

/-- C4: from a boot state (empty registry), `restoreSchedules` runs to
completion and (i) registers a recurring job for exactly the enabled fixed
records, (ii) registers a one-shot timer for exactly the enabled manual
records whose instant is still future, (iii) persists `enabled = false` for
the enabled manual records whose instant has passed while leaving every
other record — in particular every disabled record — untouched.  (The
hypotheses: store ids are unique, the cron library accepts the enabled fixed
records' expressions, enabled manual records have an instant.) -/
theorem c4_restore_on_start (env : Env) (store : List Schedule)
    (hids : (storeIds store).Nodup)
    (hcron : ∀ r ∈ store, r.enabled = true → r.type = .fixed → env.cronAccepts r.cron = true)
    (hman : ∀ r ∈ store, r.enabled = true → r.type = .manual → r.scheduledAt.isSome) :
    (restoreSchedules env { store := store, cronJobs := [], timers := [] }).2 = none
    ∧ (restoreSchedules env { store := store, cronJobs := [], timers := [] }).1.cronJobs
        = storeIds (store.filter (fun r => r.enabled && r.type == SchedType.fixed))
    ∧ (restoreSchedules env { store := store, cronJobs := [], timers := [] }).1.timers
        = storeIds (store.filter (fun r => r.enabled && r.type == SchedType.manual
            && r.scheduledAt.any (fun t => env.now < t)))
    ∧ (restoreSchedules env { store := store, cronJobs := [], timers := [] }).1.store
        = store.map (fun x =>
            if x.enabled = true ∧ x.type = SchedType.manual
                ∧ x.scheduledAt.any (fun t => t ≤ env.now) = true
            then { x with enabled := false } else x) := by
  unfold restoreSchedules
  obtain ⟨he, hc, ht, hst⟩ := restoreGo_spec env store
    { store := store, cronJobs := [], timers := [] } hids (fun r hr => hr) hids
    (by intro r hr hm; simp at hm) hcron hman
  refine ⟨he, by simpa using hc, by simpa using ht, ?_⟩
  rw [hst]
  apply List.map_congr_left
  intro x hx
  exact if_congr (and_iff_right hx) rfl rfl

/-- Witness for C4, the spec's Scenario C: restoring a store with three
enabled fixed records, one enabled future manual record and one enabled past
manual record yields the characterized state; concretely, exactly four live
registry entries result and the past manual record (id 5) is persisted
disabled. -/
theorem c4_witness :
    ((restoreSchedules envAcc { store := storeScenC, cronJobs := [], timers := [] }).2 = none
      ∧ (restoreSchedules envAcc { store := storeScenC, cronJobs := [], timers := [] }).1.cronJobs
          = storeIds (storeScenC.filter (fun r => r.enabled && r.type == SchedType.fixed))
      ∧ (restoreSchedules envAcc { store := storeScenC, cronJobs := [], timers := [] }).1.timers
          = storeIds (storeScenC.filter (fun r => r.enabled && r.type == SchedType.manual
              && r.scheduledAt.any (fun t => envAcc.now < t)))
      ∧ (restoreSchedules envAcc { store := storeScenC, cronJobs := [], timers := [] }).1.store
          = storeScenC.map (fun x =>
              if x.enabled = true ∧ x.type = SchedType.manual
                  ∧ x.scheduledAt.any (fun t => t ≤ envAcc.now) = true
              then { x with enabled := false } else x))
    ∧ ((restoreSchedules envAcc { store := storeScenC, cronJobs := [], timers := [] }).1.cronJobs.length
        + (restoreSchedules envAcc
            { store := storeScenC, cronJobs := [], timers := [] }).1.timers.length = 4)
    ∧ storeFind (restoreSchedules envAcc
          { store := storeScenC, cronJobs := [], timers := [] }).1.store 5
        = some { recManual 5 500 with enabled := false } :=
  ⟨c4_restore_on_start envAcc storeScenC (by decide) (by decide) (by decide),
   by decide, by decide⟩

/-! ## Digit and rendering lemmas for the cron grammar -/

theorem digitChar_isDigit (d : Nat) : (digitChar d).isDigit = true := by
  unfold digitChar
  split <;> decide

theorem digitChar_not_special (d : Nat) :
    isWsChar (digitChar d) = false ∧ digitChar d ≠ ',' ∧ digitChar d ≠ '-'
      ∧ digitChar d ≠ '/' ∧ digitChar d ≠ '*' ∧ digitChar d ≠ '+' := by
  unfold digitChar
  split <;> refine ⟨by decide, by decide, by decide, by decide, by decide, by decide⟩

theorem digitChar_toNat (d : Nat) (h : d < 10) : (digitChar d).toNat - 48 = d := by
  interval_cases d <;> decide

theorem natChars_ne_nil (n : Nat) : natChars n ≠ [] := by
  unfold natChars
  split
  · simp
  · simp

theorem natChars_forall (n : Nat) : ∀ c ∈ natChars n, ∃ d, c = digitChar d := by
  induction n using Nat.strong_induction_on with
  | _ n ih =>
    unfold natChars
    split
    · intro c hc
      rcases List.mem_singleton.mp hc with rfl
      exact ⟨n, rfl⟩
    · rename_i h
      intro c hc
      rcases List.mem_append.mp hc with hc | hc
      · exact ih (n / 10) (Nat.div_lt_self (by omega) (by omega)) c hc
      · rcases List.mem_singleton.mp hc with rfl
        exact ⟨n % 10, rfl⟩

theorem parseDigits_append (xs : List Char) (c : Char) :
    parseDigits (xs ++ [c]) = parseDigits xs * 10 + (c.toNat - 48) := by
  unfold parseDigits
  rw [List.foldl_append]
  rfl

theorem parseDigits_natChars (n : Nat) : parseDigits (natChars n) = n := by
  induction n using Nat.strong_induction_on with
  | _ n ih =>
    unfold natChars
    split
    · rename_i h
      show 0 * 10 + ((digitChar n).toNat - 48) = n
      rw [digitChar_toNat n h]
      omega
    · rename_i h
      rw [parseDigits_append, ih (n / 10) (Nat.div_lt_self (by omega) (by omega)),
        digitChar_toNat (n % 10) (Nat.mod_lt _ (by omega))]
      omega

theorem dropWhile_eq_self_of_all {l : List Char} (h : ∀ c ∈ l, isWsChar c = false) :
    l.dropWhile isWsChar = l := by
  cases l with
  | nil => rfl
  | cons c cs =>
    rw [List.dropWhile_cons_of_neg]
    simp [h c (List.mem_cons_self c cs)]

theorem jsTrim_eq_self {l : List Char} (h : ∀ c ∈ l, isWsChar c = false) :
    jsTrim l = l := by
  unfold jsTrim
  rw [dropWhile_eq_self_of_all h,
    dropWhile_eq_self_of_all (fun c hc => h c (List.mem_reverse.mp hc)),
    List.reverse_reverse]

theorem jsNumberL_digits {l : List Char} (hne : l ≠ [])
    (hall : ∀ c ∈ l, ∃ d, c = digitChar d) :
    jsNumberL l = some ((parseDigits l : Nat) : Int) := by
  have hws : ∀ c ∈ l, isWsChar c = false := by
    intro c hc
    obtain ⟨d, rfl⟩ := hall c hc
    exact (digitChar_not_special d).1
  unfold jsNumberL
  rw [jsTrim_eq_self hws]
  cases l with
  | nil => exact absurd rfl hne
  | cons c cs =>
    dsimp only
    obtain ⟨d, hd⟩ := hall c (List.mem_cons_self c cs)
    rw [if_neg (by rw [hd]; exact (digitChar_not_special d).2.2.1),
      if_neg (by rw [hd]; exact (digitChar_not_special d).2.2.2.2.2),
      if_pos]
    rw [List.all_eq_true]
    intro x hx
    obtain ⟨e, he⟩ := hall x hx
    rw [he]
    exact digitChar_isDigit e

theorem splitOnP_cons (p : Char → Bool) (c : Char) (cs : List Char) :
    splitOnP p (c :: cs) = match splitOnP p cs with
      | [] => [[]]
      | h :: t => if p c then [] :: h :: t else (c :: h) :: t := rfl

theorem splitOnP_ne_nil (p : Char → Bool) (l : List Char) : splitOnP p l ≠ [] := by
  cases l with
  | nil => simp [splitOnP]
  | cons c cs =>
    rw [splitOnP_cons]
    cases splitOnP p cs with
    | nil => simp
    | cons h t =>
      dsimp only
      split <;> simp

theorem splitOnP_no_sep {p : Char → Bool} {l : List Char}
    (h : ∀ c ∈ l, p c = false) : splitOnP p l = [l] := by
  induction l with
  | nil => rfl
  | cons c cs ih =>
    rw [splitOnP_cons, ih (fun x hx => h x (List.mem_cons_of_mem _ hx))]
    dsimp only
    rw [if_neg (by simp [h c (List.mem_cons_self c cs)])]

theorem splitOnP_append_sep {p : Char → Bool} {x : List Char} {c : Char} {y : List Char}
    (hx : ∀ a ∈ x, p a = false) (hc : p c = true) :
    splitOnP p (x ++ c :: y) = x :: splitOnP p y := by
  induction x with
  | nil =>
    show splitOnP p (c :: y) = [] :: splitOnP p y
    rw [splitOnP_cons]
    cases hsp : splitOnP p y with
    | nil => exact absurd hsp (splitOnP_ne_nil p y)
    | cons h t =>
      dsimp only
      rw [if_pos hc]
  | cons a as ih =>
    show splitOnP p (a :: (as ++ c :: y)) = (a :: as) :: splitOnP p y
    rw [splitOnP_cons, ih (fun b hb => hx b (List.mem_cons_of_mem _ hb))]
    dsimp only
    rw [if_neg (by simp [hx a (List.mem_cons_self a as)])]

theorem splitOnP_joinSep {p : Char → Bool} {sep : Char} (hsep : p sep = true) :
    ∀ (parts : List (List Char)), parts ≠ [] →
      (∀ part ∈ parts, ∀ c ∈ part, p c = false) →
      splitOnP p (joinSep sep parts) = parts
  | [], h, _ => absurd rfl h
  | [q], _, hall => by
    show splitOnP p q = [q]
    exact splitOnP_no_sep (hall q (List.mem_singleton_self q))
  | q :: q2 :: rest, _, hall => by
    show splitOnP p (q ++ sep :: joinSep sep (q2 :: rest)) = q :: (q2 :: rest)
    rw [splitOnP_append_sep (hall q (List.mem_cons_self _ _)) hsep,
      splitOnP_joinSep hsep (q2 :: rest) (by simp)
        (fun part hp => hall part (List.mem_cons_of_mem _ hp))]

theorem render_chars (t : CronTerm) :
    ∀ c ∈ t.render, (∃ d, c = digitChar d) ∨ c = '-' ∨ c = '/' ∨ c = '*' := by
  cases t with
  | lit n =>
    intro c hc
    exact Or.inl (natChars_forall n c hc)
  | range a b =>
    intro c hc
    rcases List.mem_append.mp hc with hc | hc
    · exact Or.inl (natChars_forall a c hc)
    · rcases List.mem_cons.mp hc with rfl | hc
      · exact Or.inr (Or.inl rfl)
      · exact Or.inl (natChars_forall b c hc)
  | step n =>
    intro c hc
    rcases List.mem_cons.mp hc with rfl | hc
    · exact Or.inr (Or.inr (Or.inr rfl))
    · rcases List.mem_cons.mp hc with rfl | hc
      · exact Or.inr (Or.inr (Or.inl rfl))
      · exact Or.inl (natChars_forall n c hc)

theorem render_no_comma (t : CronTerm) :
    ∀ c ∈ t.render, (fun c => decide (c = ',')) c = false := by
  intro c hc
  rcases render_chars t c hc with ⟨d, rfl⟩ | rfl | rfl | rfl
  · simp [(digitChar_not_special d).2.1]
  · decide
  · decide
  · decide

theorem contains_eq_false_of_not_mem {l : List Char} {c : Char} (h : c ∉ l) :
    l.contains c = false := by
  show l.elem c = false
  rw [List.elem_eq_mem]
  simpa using h

theorem contains_eq_true_of_mem {l : List Char} {c : Char} (h : c ∈ l) :
    l.contains c = true := by
  show l.elem c = true
  rw [List.elem_eq_mem]
  simpa using h

theorem not_mem_natChars_of_special (n : Nat) {c : Char}
    (h : ∀ d : Nat, digitChar d ≠ c) : c ∉ natChars n := by
  intro hm
  obtain ⟨d, hd⟩ := natChars_forall n c hm
  exact h d hd.symm

theorem jsNumberL_step_none (n : Nat) : jsNumberL ('*' :: '/' :: natChars n) = none := by
  unfold jsNumberL
  rw [jsTrim_eq_self (by
    intro c hc
    rcases List.mem_cons.mp hc with rfl | hc
    · decide
    · rcases List.mem_cons.mp hc with rfl | hc
      · decide
      · obtain ⟨d, rfl⟩ := natChars_forall n c hc
        exact (digitChar_not_special d).1)]
  dsimp only
  rw [if_neg (by decide), if_neg (by decide), if_neg]
  simp [List.all_cons]

theorem splitOnP_range (a b : Nat) :
    splitOnP (fun c => c = '-') (natChars a ++ '-' :: natChars b)
      = [natChars a, natChars b] := by
  rw [splitOnP_append_sep (by
      intro x hx
      obtain ⟨d, rfl⟩ := natChars_forall a x hx
      simp [(digitChar_not_special d).2.2.1]) (by decide),
    splitOnP_no_sep (by
      intro x hx
      obtain ⟨d, rfl⟩ := natChars_forall b x hx
      simp [(digitChar_not_special d).2.2.1])]

theorem cronPartMatches_render (v : Nat) (t : CronTerm) (hwf : t.wf) :
    cronPartMatches v t.render = t.fieldMatchesSpec v := by
  cases t with
  | lit n =>
    show cronPartMatches v (natChars n) = (n == v)
    have h1 : (natChars n).contains '/' = false :=
      contains_eq_false_of_not_mem (not_mem_natChars_of_special n
        (fun d => (digitChar_not_special d).2.2.2.1))
    have h2 : (natChars n).contains '-' = false :=
      contains_eq_false_of_not_mem (not_mem_natChars_of_special n
        (fun d => (digitChar_not_special d).2.2.1))
    unfold cronPartMatches
    rw [if_neg (by rw [h1]; decide), if_neg (by rw [h2]; decide),
      jsNumberL_digits (natChars_ne_nil n) (natChars_forall n), parseDigits_natChars]
    dsimp only
    rw [Bool.eq_iff_iff, beq_iff_eq, beq_iff_eq]
    exact ⟨fun h => by exact_mod_cast h, fun h => by exact_mod_cast h⟩
  | range a b =>
    show cronPartMatches v (natChars a ++ '-' :: natChars b) = _
    have hnm : ('/' : Char) ∉ natChars a ++ '-' :: natChars b := by
      intro hm
      rcases List.mem_append.mp hm with hm | hm
      · obtain ⟨d, hd⟩ := natChars_forall a _ hm
        exact (digitChar_not_special d).2.2.2.1 hd.symm
      · rcases List.mem_cons.mp hm with h | hm
        · cases h
        · obtain ⟨d, hd⟩ := natChars_forall b _ hm
          exact (digitChar_not_special d).2.2.2.1 hd.symm
    have h1 : (natChars a ++ '-' :: natChars b).contains '/' = false :=
      contains_eq_false_of_not_mem hnm
    unfold cronPartMatches
    rw [if_neg (by rw [h1]; decide),
      if_pos (contains_eq_true_of_mem (List.mem_append.mpr
        (Or.inr (List.mem_cons_self _ _)))),
      splitOnP_range,
      show [natChars a, natChars b].getD 0 [] = natChars a from rfl,
      show [natChars a, natChars b].getD 1 [] = natChars b from rfl]
    rw [jsNumberL_digits (natChars_ne_nil a) (natChars_forall a), parseDigits_natChars,
      jsNumberL_digits (natChars_ne_nil b) (natChars_forall b), parseDigits_natChars]
    show (decide ((a : Int) ≤ (v : Int)) && decide ((v : Int) ≤ (b : Int)))
        = decide (a ≤ v ∧ v ≤ b)
    rw [Bool.eq_iff_iff]
    simp only [Bool.and_eq_true, decide_eq_true_eq]
    constructor
    · rintro ⟨h1, h2⟩
      exact ⟨by exact_mod_cast h1, by exact_mod_cast h2⟩
    · rintro ⟨h1, h2⟩
      exact ⟨by exact_mod_cast h1, by exact_mod_cast h2⟩
  | step n =>
    show cronPartMatches v ('*' :: '/' :: natChars n) = (v % n == 0)
    have hstep : 0 < n := hwf
    unfold cronPartMatches
    rw [if_pos (contains_eq_true_of_mem (List.mem_cons_of_mem _
        (List.mem_cons_self _ _)))]
    rw [show ('*' :: '/' :: natChars n) = ['*'] ++ '/' :: natChars n from rfl,
      splitOnP_append_sep (by
        intro x hx
        rcases List.mem_singleton.mp hx with rfl
        decide) (by decide),
      splitOnP_no_sep (by
        intro x hx
        obtain ⟨d, rfl⟩ := natChars_forall n x hx
        simp [(digitChar_not_special d).2.2.2.1])]
    rw [show [['*'], natChars n].getD 1 [] = natChars n from rfl,
      show [['*'], natChars n].getD 0 [] = ['*'] from rfl,
      jsNumberL_digits (natChars_ne_nil n) (natChars_forall n), parseDigits_natChars]
    dsimp only
    have hne : ¬ ((n : Int) = 0) := by
      intro h
      omega
    rw [Bool.eq_iff_iff]
    simp only [Bool.and_eq_true, decide_eq_true_eq, beq_iff_eq]
    constructor
    · rintro ⟨⟨-, -⟩, h⟩
      exact_mod_cast h
    · intro h
      exact ⟨⟨trivial, hne⟩, by exact_mod_cast h⟩

theorem cronDowPartMatches_render (dow : Nat) (t : CronTerm) :
    cronDowPartMatches dow t.render = t.dowMatchesSpec dow := by
  cases t with
  | lit n =>
    show cronDowPartMatches dow (natChars n) = (n == dow || (n == 7 && dow == 0))
    have h2 : (natChars n).contains '-' = false :=
      contains_eq_false_of_not_mem (not_mem_natChars_of_special n
        (fun d => (digitChar_not_special d).2.2.1))
    unfold cronDowPartMatches
    rw [if_neg (by rw [h2]; decide),
      jsNumberL_digits (natChars_ne_nil n) (natChars_forall n), parseDigits_natChars]
    dsimp only
    rw [Bool.eq_iff_iff]
    simp only [Bool.or_eq_true, Bool.and_eq_true, beq_iff_eq]
    constructor
    · rintro (h | ⟨h7, h0⟩)
      · exact Or.inl (by exact_mod_cast h)
      · exact Or.inr ⟨by exact_mod_cast h7, h0⟩
    · rintro (h | ⟨h7, h0⟩)
      · exact Or.inl (by exact_mod_cast h)
      · exact Or.inr ⟨by exact_mod_cast h7, h0⟩
  | range a b =>
    show cronDowPartMatches dow (natChars a ++ '-' :: natChars b) = _
    unfold cronDowPartMatches
    rw [if_pos (contains_eq_true_of_mem (List.mem_append.mpr
        (Or.inr (List.mem_cons_self _ _)))),
      splitOnP_range,
      show [natChars a, natChars b].getD 0 [] = natChars a from rfl,
      show [natChars a, natChars b].getD 1 [] = natChars b from rfl]
    rw [jsNumberL_digits (natChars_ne_nil a) (natChars_forall a), parseDigits_natChars,
      jsNumberL_digits (natChars_ne_nil b) (natChars_forall b), parseDigits_natChars]
    show (decide ((a : Int) ≤ (dow : Int)) && decide ((dow : Int) ≤ (b : Int)))
        = decide (a ≤ dow ∧ dow ≤ b)
    rw [Bool.eq_iff_iff]
    simp only [Bool.and_eq_true, decide_eq_true_eq]
    constructor
    · rintro ⟨h1, h2⟩
      exact ⟨by exact_mod_cast h1, by exact_mod_cast h2⟩
    · rintro ⟨h1, h2⟩
      exact ⟨by exact_mod_cast h1, by exact_mod_cast h2⟩
  | step n =>
    show cronDowPartMatches dow ('*' :: '/' :: natChars n) = false
    have h2 : ('*' :: '/' :: natChars n).contains '-' = false := by
      apply contains_eq_false_of_not_mem
      intro hm
      rcases List.mem_cons.mp hm with h | hm
      · cases h
      · rcases List.mem_cons.mp hm with h | hm
        · cases h
        · obtain ⟨d, hd⟩ := natChars_forall n _ hm
          exact (digitChar_not_special d).2.2.1 hd.symm
    unfold cronDowPartMatches
    rw [if_neg (by rw [h2]; decide), jsNumberL_step_none]

theorem any_map_congr {l : List CronTerm} {p : List Char → Bool} {q : CronTerm → Bool}
    (h : ∀ t ∈ l, p t.render = q t) :
    (l.map CronTerm.render).any p = l.any q := by
  induction l with
  | nil => rfl
  | cons a as ih =>
    simp only [List.map_cons, List.any_cons, h a (List.mem_cons_self a as),
      ih (fun x hx => h x (List.mem_cons_of_mem _ hx))]

theorem renderField_ne_star : ∀ (ts : List CronTerm), ts ≠ [] → renderField ts ≠ ['*']
  | [], h, _ => absurd rfl h
  | [t], _, hcon => by
    have hre : t.render = ['*'] := hcon
    cases t with
    | lit n =>
      have hm : '*' ∈ natChars n := by
        rw [show natChars n = ['*'] from hre]
        exact List.mem_singleton_self _
      obtain ⟨d, hd⟩ := natChars_forall n _ hm
      exact (digitChar_not_special d).2.2.2.2.1 hd.symm
    | range a b =>
      have hm : '-' ∈ CronTerm.render (.range a b) :=
        List.mem_append.mpr (Or.inr (List.mem_cons_self _ _))
      rw [hre] at hm
      exact absurd (List.mem_singleton.mp hm) (by decide)
    | step n =>
      have := hre
      simp [CronTerm.render] at this
  | t1 :: t2 :: rest, _, hcon => by
    have hm : ',' ∈ renderField (t1 :: t2 :: rest) :=
      List.mem_append.mpr (Or.inr (List.mem_cons_self _ _))
    rw [hcon] at hm
    exact absurd (List.mem_singleton.mp hm) (by decide)

theorem cronFieldMatchesL_render (ts : List CronTerm) (hne : ts ≠ [])
    (hwf : ∀ t ∈ ts, t.wf) (v : Nat) :
    cronFieldMatchesL (renderField ts) v = ts.any (fun t => t.fieldMatchesSpec v) := by
  unfold cronFieldMatchesL
  rw [if_neg (renderField_ne_star ts hne)]
  unfold renderField
  rw [splitOnP_joinSep (by decide) (ts.map CronTerm.render)
      (by simp [hne])
      (by
        intro part hp c hc
        obtain ⟨t, ht, rfl⟩ := List.mem_map.mp hp
        exact render_no_comma t c hc)]
  exact any_map_congr (fun t ht => cronPartMatches_render v t (hwf t ht))

theorem cronDowMatchesL_render (ts : List CronTerm) (hne : ts ≠ []) (dow : Nat) :
    cronDowMatchesL (renderField ts) dow = ts.any (fun t => t.dowMatchesSpec dow) := by
  unfold cronDowMatchesL
  rw [if_neg (renderField_ne_star ts hne)]
  unfold renderField
  rw [splitOnP_joinSep (by decide) (ts.map CronTerm.render)
      (by simp [hne])
      (by
        intro part hp c hc
        obtain ⟨t, ht, rfl⟩ := List.mem_map.mp hp
        exact render_no_comma t c hc)]
  exact any_map_congr (fun t _ => cronDowPartMatches_render dow t)

/-- C5: for every cron expression with (at least) five whitespace-separated
fields and every calendar day, the day-level matcher returns true exactly
when the month field matches the month, the day-of-month field matches the
day and the day-of-week field matches the weekday; the minute and hour
fields (the first two) do not occur in the result. -/
theorem c5_day_matcher (cron : String) (f0 f1 f2 f3 f4 : List Char)
    (h : wsFields cron.data = [f0, f1, f2, f3, f4]) (dow date mon : Nat) :
    cronMatchesToday cron dow date mon
      = (cronFieldMatchesL f3 mon && cronFieldMatchesL f2 date
          && cronDowMatchesL f4 dow) := by
  unfold cronMatchesToday cronMatchesTodayL
  rw [h]
  rfl

/-- Witness for C5 at the expression `0 9 * * 1-5` and a Wednesday the
10th of June. -/
theorem c5_witness :
    wsFields "0 9 * * 1-5".data
        = ["0".data, "9".data, "*".data, "*".data, "1-5".data]
    ∧ cronMatchesToday "0 9 * * 1-5" 3 10 6
        = (cronFieldMatchesL "*".data 6 && cronFieldMatchesL "*".data 10
            && cronDowMatchesL "1-5".data 3) :=
  ⟨by decide, c5_day_matcher "0 9 * * 1-5" "0".data "9".data "*".data "*".data
    "1-5".data (by decide) 3 10 6⟩

/-- C6 counterexample: the day-of-week matcher does not share `matchField`'s
step-term grammar — on the field `*/2` and weekday 4 (divisible by 2) the
general field matcher matches but the day-of-week matcher does not. -/
theorem c6_counterexample :
    cronDowMatches "*/2" 4 = false ∧ cronFieldMatches "*/2" 4 = true ∧ 4 % 2 = 0 :=
  ⟨by decide, by decide, by decide⟩

/-- C6 (amended): the day-of-week matcher evaluates `*` as match-anything
and a comma-separated list of literals and inclusive ranges, matching if any
sub-term matches, with a literal `7` an alias for `0`; a step sub-term
`*/n`, unlike in `matchField`, is not supported and never matches (the
`dowMatchesSpec` semantics maps it to `false`). -/
theorem c6_match_day_of_week_amended (dow : Nat) :
    cronDowMatchesL ['*'] dow = true
    ∧ (∀ (ts : List CronTerm), ts ≠ [] →
        cronDowMatchesL (renderField ts) dow = ts.any (fun t => t.dowMatchesSpec dow))
    ∧ cronDowMatches "0" 0 = true ∧ cronDowMatches "7" 0 = true :=
  ⟨rfl, fun ts hne => cronDowMatchesL_render ts hne dow, by decide, by decide⟩

/-- Witness for C6: the rendered field `7,1-5` against Sunday (0) — the
literal alias fires - and against weekday 6 — nothing fires. -/
theorem c6_witness :
    cronDowMatchesL (renderField [CronTerm.lit 7, CronTerm.range 1 5]) 0
        = [CronTerm.lit 7, CronTerm.range 1 5].any (fun t => t.dowMatchesSpec 0)
    ∧ cronDowMatchesL (renderField [CronTerm.lit 7, CronTerm.range 1 5]) 6
        = [CronTerm.lit 7, CronTerm.range 1 5].any (fun t => t.dowMatchesSpec 6) :=
  ⟨(c6_match_day_of_week_amended 0).2.1 _ (by decide),
   (c6_match_day_of_week_amended 6).2.1 _ (by decide)⟩

/-- C7: `matchField` interprets a field as `*` (matches anything) or a
comma-separated list of sub-terms — literal, inclusive range, step `*/n`
with positive `n` matching multiples — matching when any sub-term matches;
together with the spec's concrete examples. -/
theorem c7_match_field (v : Nat) :
    cronFieldMatchesL ['*'] v = true
    ∧ (∀ (ts : List CronTerm), ts ≠ [] → (∀ t ∈ ts, t.wf) →
        cronFieldMatchesL (renderField ts) v = ts.any (fun t => t.fieldMatchesSpec v))
    ∧ cronFieldMatches "1-5" 3 = true ∧ cronFieldMatches "1-5" 6 = false
    ∧ cronFieldMatches "1,3,5" 3 = true ∧ cronFieldMatches "1,3,5" 4 = false :=
  ⟨rfl, fun ts hne hwf => cronFieldMatchesL_render ts hne hwf v,
   by decide, by decide, by decide, by decide⟩

/-- Witness for C7: the rendered field `1,2-4,*/5` against 10 (the step
sub-term fires) and against 7 (no sub-term fires). -/
theorem c7_witness :
    cronFieldMatchesL (renderField [CronTerm.lit 1, CronTerm.range 2 4, CronTerm.step 5]) 10
        = [CronTerm.lit 1, CronTerm.range 2 4, CronTerm.step 5].any
            (fun t => t.fieldMatchesSpec 10)
    ∧ cronFieldMatchesL (renderField [CronTerm.lit 1, CronTerm.range 2 4, CronTerm.step 5]) 7
        = [CronTerm.lit 1, CronTerm.range 2 4, CronTerm.step 5].any
            (fun t => t.fieldMatchesSpec 7) := by
  have hwf : ∀ t ∈ [CronTerm.lit 1, CronTerm.range 2 4, CronTerm.step 5], t.wf := by
    intro t ht
    rcases List.mem_cons.mp ht with rfl | ht
    · exact trivial
    · rcases List.mem_cons.mp ht with rfl | ht
      · exact trivial
      · rcases List.mem_cons.mp ht with rfl | ht
        · exact Nat.succ_pos 4
        · cases ht
  exact ⟨(c7_match_field 10).2.1 _ (by decide) hwf,
    (c7_match_field 7).2.1 _ (by decide) hwf⟩

theorem option_any_eq_true {o : Option Int} {p : Int → Bool} :
    o.any p = true ↔ ∃ t, o = some t ∧ p t = true := by
  cases o <;> simp [Option.any]

/-- C8 counterexample: an enabled Manual record whose `scheduledAt` has
already elapsed is hidden by `findAll`, although the claim says an enabled
Manual record is never hidden by the read-time rule. -/
theorem c8_counterexample :
    (recManual 8 500).enabled = true
    ∧ (recManual 8 500).type = SchedType.manual
    ∧ findAll envAcc none none storeC8 = [] :=
  ⟨by decide, by decide, by decide⟩

/-- C8 (amended): `findAll` returns exactly the records that pass the chat
and type filters, except that a Manual record is hidden exactly when it has
an elapsed `scheduledAt` — independent of its `enabled` flag — and an Event
record is hidden exactly when its +09:00 calendar date is not today's. -/
theorem c8_find_all_amended (env : Env) (type? chatId? : Option String)
    (store : List Schedule) (r : Schedule) :
    r ∈ findAll env type? chatId? store
      ↔ r ∈ store
        ∧ (strTruthy chatId? = true → r.chatId = chatId?.getD "")
        ∧ (strTruthy type? = true → r.type.str = type?.getD "")
        ∧ ¬(r.type = SchedType.manual ∧ ∃ t, r.scheduledAt = some t ∧ t ≤ env.now)
        ∧ ¬(r.type = SchedType.event ∧ ∃ t, r.scheduledAt = some t
              ∧ isDateToday t (env.now + kstOffsetMs) = false) := by
  unfold findAll
  rw [List.mem_filter]
  refine and_congr_right (fun _ => ?_)
  unfold keepInFindAll
  split_ifs with h1 h2 h3 h4
  · simp only [Bool.false_eq_true, false_iff]
    rintro ⟨hchat, -, -, -⟩
    rw [Bool.and_eq_true, bne_iff_ne] at h1
    exact h1.2 (hchat h1.1)
  · simp only [Bool.false_eq_true, false_iff]
    rintro ⟨-, htype, -, -⟩
    rw [Bool.and_eq_true, bne_iff_ne] at h2
    exact h2.2 (htype h2.1)
  · simp only [Bool.false_eq_true, false_iff]
    rintro ⟨-, -, hman, -⟩
    rw [Bool.and_eq_true, beq_iff_eq] at h3
    obtain ⟨t, hsa, hle⟩ := option_any_eq_true.mp h3.2
    exact hman ⟨h3.1, t, hsa, by simpa using hle⟩
  · simp only [Bool.false_eq_true, false_iff]
    rintro ⟨-, -, -, hev⟩
    rw [Bool.and_eq_true, beq_iff_eq] at h4
    obtain ⟨t, hsa, hnd⟩ := option_any_eq_true.mp h4.2
    exact hev ⟨h4.1, t, hsa, by simpa using hnd⟩
  · simp only [true_iff]
    refine ⟨?_, ?_, ?_, ?_⟩
    · intro hct
      by_contra hne
      exact h1 (by rw [Bool.and_eq_true, bne_iff_ne]; exact ⟨hct, hne⟩)
    · intro htt
      by_contra hne
      exact h2 (by rw [Bool.and_eq_true, bne_iff_ne]; exact ⟨htt, hne⟩)
    · rintro ⟨hm, t, hsa, hle⟩
      exact h3 (by
        rw [Bool.and_eq_true, beq_iff_eq]
        exact ⟨hm, option_any_eq_true.mpr ⟨t, hsa, by simpa using hle⟩⟩)
    · rintro ⟨hm, t, hsa, hnd⟩
      exact h4 (by
        rw [Bool.and_eq_true, beq_iff_eq]
        exact ⟨hm, option_any_eq_true.mpr ⟨t, hsa, by simpa using hnd⟩⟩)

/-! ## Daily-summary grouping lemmas -/

theorem groupFind_nil (k : String) : groupFind [] k = [] := rfl

theorem groupFind_cons (g : String × List Schedule) (gs : List (String × List Schedule))
    (k : String) :
    groupFind (g :: gs) k = if g.1 = k then g.2 else groupFind gs k := by
  by_cases h : g.1 = k
  · unfold groupFind
    rw [List.find?_cons_of_pos _ (by simpa using h), if_pos h]
  · unfold groupFind
    rw [List.find?_cons_of_neg _ (by simpa using h), if_neg h]

theorem pushGroup_find (groups : List (String × List Schedule)) (key k : String)
    (r : Schedule) :
    groupFind (pushGroup groups key r) k
      = if k = key then groupFind groups k ++ [r] else groupFind groups k := by
  induction groups with
  | nil =>
    show groupFind [(key, [r])] k = _
    rw [groupFind_cons, groupFind_nil]
    by_cases h : k = key
    · rw [if_pos h.symm, if_pos h]
      rfl
    · rw [if_neg (fun hh => h hh.symm), if_neg h]
  | cons g gs ih =>
    obtain ⟨a, v⟩ := g
    show groupFind (if a = key then (a, v ++ [r]) :: gs else (a, v) :: pushGroup gs key r) k = _
    by_cases hak : a = key
    · rw [if_pos hak, groupFind_cons, groupFind_cons]
      by_cases hk : k = key
      · have hak2 : a = k := hak.trans hk.symm
        rw [if_pos hak2, if_pos hk, if_pos hak2]
      · have hak2 : ¬ a = k := fun h => hk (h.symm.trans hak)
        rw [if_neg hak2, if_neg hk, if_neg hak2]
    · rw [if_neg hak, groupFind_cons, groupFind_cons]
      by_cases hk2 : a = k
      · have hkk : ¬ k = key := fun h => hak (hk2.trans h)
        rw [if_pos hk2, if_neg hkk, if_pos hk2]
      · rw [if_neg hk2, ih, if_neg hk2]

theorem pushGroup_keys (groups : List (String × List Schedule)) (key : String)
    (r : Schedule) :
    (pushGroup groups key r).map Prod.fst
      = if key ∈ groups.map Prod.fst then groups.map Prod.fst
        else groups.map Prod.fst ++ [key] := by
  induction groups with
  | nil => simp [pushGroup]
  | cons g gs ih =>
    obtain ⟨a, v⟩ := g
    show (if a = key then (a, v ++ [r]) :: gs else (a, v) :: pushGroup gs key r).map Prod.fst = _
    by_cases hak : a = key
    · subst hak
      rw [if_pos rfl]
      simp [List.map_cons]
    · rw [if_neg hak, List.map_cons, List.map_cons, ih]
      by_cases hmem : key ∈ gs.map Prod.fst
      · rw [if_pos hmem, if_pos (List.mem_cons_of_mem _ hmem)]
      · rw [if_neg hmem,
          if_neg (show ¬ key ∈ a :: gs.map Prod.fst by simp [List.mem_cons, hmem, Ne.symm hak])]
        rfl

theorem mem_pushGroup_keys (groups : List (String × List Schedule)) (key : String)
    (r : Schedule) (k : String) :
    k ∈ (pushGroup groups key r).map Prod.fst ↔ k ∈ groups.map Prod.fst ∨ k = key := by
  rw [pushGroup_keys]
  by_cases h : key ∈ groups.map Prod.fst
  · rw [if_pos h]
    constructor
    · exact Or.inl
    · rintro (hm | rfl)
      · exact hm
      · exact h
  · rw [if_neg h]
    simp [List.mem_append]

theorem groupFold_find (env : Env) (l : List Schedule) :
    ∀ (acc : List (String × List Schedule)) (k : String),
      groupFind (l.foldl (fun g r => pushGroup g (effChat env r) r) acc) k
        = groupFind acc k ++ l.filter (fun r => effChat env r = k) := by
  induction l with
  | nil => intro acc k; simp
  | cons r rest ih =>
    intro acc k
    rw [List.foldl_cons, ih, pushGroup_find, List.filter_cons]
    by_cases hk : k = effChat env r
    · rw [if_pos hk, if_pos (by simp [hk])]
      simp
    · rw [if_neg hk,
        if_neg (show ¬ (decide (effChat env r = k) = true) by
          simp only [decide_eq_true_eq]
          exact fun h => hk h.symm)]

theorem groupFold_keys_nodup (env : Env) (l : List Schedule) :
    ∀ acc : List (String × List Schedule), (acc.map Prod.fst).Nodup →
      ((l.foldl (fun g r => pushGroup g (effChat env r) r) acc).map Prod.fst).Nodup := by
  induction l with
  | nil => intro acc h; exact h
  | cons r rest ih =>
    intro acc h
    rw [List.foldl_cons]
    apply ih
    rw [pushGroup_keys]
    by_cases hm : effChat env r ∈ acc.map Prod.fst
    · rw [if_pos hm]; exact h
    · rw [if_neg hm, List.nodup_append]
      refine ⟨h, List.nodup_singleton _, ?_⟩
      intro a ha hb
      rw [List.mem_singleton] at hb
      exact hm (hb ▸ ha)

theorem groupFold_keys_mem (env : Env) (l : List Schedule) :
    ∀ (acc : List (String × List Schedule)) (k : String),
      k ∈ (l.foldl (fun g r => pushGroup g (effChat env r) r) acc).map Prod.fst
        ↔ k ∈ acc.map Prod.fst ∨ ∃ r ∈ l, effChat env r = k := by
  induction l with
  | nil => intro acc k; simp
  | cons r rest ih =>
    intro acc k
    rw [List.foldl_cons, ih, mem_pushGroup_keys]
    constructor
    · rintro ((hm | hk) | ⟨r', hr', he⟩)
      · exact Or.inl hm
      · exact Or.inr ⟨r, List.mem_cons_self r rest, hk.symm⟩
      · exact Or.inr ⟨r', List.mem_cons_of_mem _ hr', he⟩
    · rintro (hm | ⟨r', hr', he⟩)
      · exact Or.inl (Or.inl hm)
      · rcases List.mem_cons.mp hr' with h | h
        · subst h
          exact Or.inl (Or.inr he.symm)
        · exact Or.inr ⟨r', h, he⟩

theorem groupByChat_find (env : Env) (l : List Schedule) (k : String) :
    groupFind (groupByChat env l) k = l.filter (fun r => effChat env r = k) := by
  unfold groupByChat
  rw [groupFold_find env l [] k]
  rfl

theorem groupByChat_keys_nodup (env : Env) (l : List Schedule) :
    ((groupByChat env l).map Prod.fst).Nodup :=
  groupFold_keys_nodup env l [] (by simp)

theorem groupByChat_keys_mem (env : Env) (l : List Schedule) (k : String) :
    k ∈ (groupByChat env l).map Prod.fst ↔ ∃ r ∈ l, effChat env r = k := by
  unfold groupByChat
  rw [groupFold_keys_mem env l [] k]
  simp

theorem groupFind_of_mem {groups : List (String × List Schedule)}
    (hN : (groups.map Prod.fst).Nodup) {g : String × List Schedule} (hg : g ∈ groups) :
    groupFind groups g.1 = g.2 := by
  induction groups with
  | nil => cases hg
  | cons a gs ih =>
    rw [groupFind_cons]
    rw [List.map_cons, List.nodup_cons] at hN
    rcases List.mem_cons.mp hg with h | h
    · rw [if_pos (by rw [h]), h]
    · by_cases hak : a.1 = g.1
      · exact absurd (List.mem_map.mpr ⟨g, h, hak.symm⟩) hN.1
      · rw [if_neg hak]
        exact ih hN.2 h

theorem groupFind_mem_of_key {groups : List (String × List Schedule)} {k : String}
    (h : k ∈ groups.map Prod.fst) : (k, groupFind groups k) ∈ groups := by
  induction groups with
  | nil => simp at h
  | cons a gs ih =>
    rw [groupFind_cons]
    by_cases hak : a.1 = k
    · rw [if_pos hak]
      have hpair : (k, a.2) = a := by rw [← hak]
      exact List.mem_cons.mpr (Or.inl hpair)
    · rw [if_neg hak]
      rw [List.map_cons] at h
      rcases List.mem_cons.mp h with h1 | h1
      · exact absurd h1.symm hak
      · exact List.mem_cons_of_mem _ (ih h1)

theorem sendDailySummary_eq (env : Env) (store : List Schedule) :
    sendDailySummary env store
      = (groupByChat env (store.filter (fun r => r.enabled))).filterMap
          (digestOf (env.now + kstOffsetMs) (jsGetUTCDay (env.now + kstOffsetMs))
            (jsGetUTCDate (env.now + kstOffsetMs)) (jsGetUTCMonth1 (env.now + kstOffsetMs))) :=
  rfl

theorem digestOf_key (kstNow : Int) (tDow tDate tMon : Nat) (g : String × List Schedule)
    (d : String × List AlarmItem × List EventItem)
    (h : digestOf kstNow tDow tDate tMon g = some d) : d.1 = g.1 := by
  unfold digestOf at h
  split_ifs at h with hc
  injection h with h'
  rw [← h']

theorem digestOf_eq_some (kstNow : Int) (tDow tDate tMon : Nat) (g : String × List Schedule)
    (d : String × List AlarmItem × List EventItem)
    (h : digestOf kstNow tDow tDate tMon g = some d) :
    d = (g.1, (buildItems kstNow tDow tDate tMon g.2).1.mergeSort timeLe,
          (buildItems kstNow tDow tDate tMon g.2).2)
      ∧ ¬((buildItems kstNow tDow tDate tMon g.2).1.length = 0
          ∧ (buildItems kstNow tDow tDate tMon g.2).2.length = 0) := by
  unfold digestOf at h
  split_ifs at h with hc
  injection h with h'
  exact ⟨h'.symm, hc⟩

theorem digestOf_isSome_iff (kstNow : Int) (tDow tDate tMon : Nat)
    (g : String × List Schedule) :
    (digestOf kstNow tDow tDate tMon g).isSome = true
      ↔ ∃ r ∈ g.2,
          ((alarmOf kstNow tDow tDate tMon r).isSome || (eventOf kstNow r).isSome) = true := by
  unfold digestOf
  split_ifs with hc
  · simp only [Option.isSome_none, Bool.false_eq_true, false_iff]
    rintro ⟨r, hr, hq⟩
    rcases hc with ⟨h1, h2⟩
    rw [List.length_eq_zero] at h1 h2
    rw [Bool.or_eq_true] at hq
    rcases hq with hA | hE
    · rcases Option.isSome_iff_exists.mp hA with ⟨a, ha⟩
      have hmem : a ∈ (buildItems kstNow tDow tDate tMon g.2).1 :=
        List.mem_filterMap.mpr ⟨r, hr, ha⟩
      rw [h1] at hmem
      cases hmem
    · rcases Option.isSome_iff_exists.mp hE with ⟨e, he⟩
      have hmem : e ∈ (buildItems kstNow tDow tDate tMon g.2).2 :=
        List.mem_filterMap.mpr ⟨r, hr, he⟩
      rw [h2] at hmem
      cases hmem
  · simp only [Option.isSome_some, true_iff]
    rw [not_and_or] at hc
    rcases hc with h1 | h2
    · have hne : (buildItems kstNow tDow tDate tMon g.2).1 ≠ [] := by
        intro hnil
        exact h1 (by rw [hnil]; rfl)
      rcases List.exists_mem_of_ne_nil _ hne with ⟨a, ha⟩
      rcases List.mem_filterMap.mp ha with ⟨r, hr, hra⟩
      refine ⟨r, hr, ?_⟩
      rw [Bool.or_eq_true]
      exact Or.inl (by rw [hra]; rfl)
    · have hne : (buildItems kstNow tDow tDate tMon g.2).2 ≠ [] := by
        intro hnil
        exact h2 (by rw [hnil]; rfl)
      rcases List.exists_mem_of_ne_nil _ hne with ⟨e, he⟩
      rcases List.mem_filterMap.mp he with ⟨r, hr, hre⟩
      refine ⟨r, hr, ?_⟩
      rw [Bool.or_eq_true]
      exact Or.inr (by rw [hre]; rfl)

theorem filterMap_keys_sublist {β : Type}
    (F : (String × List Schedule) → Option (String × β))
    (hF : ∀ g d, F g = some d → d.1 = g.1) (groups : List (String × List Schedule)) :
    ((groups.filterMap F).map Prod.fst).Sublist (groups.map Prod.fst) := by
  induction groups with
  | nil => simp
  | cons g gs ih =>
    rw [List.filterMap_cons]
    cases hFg : F g with
    | none => exact List.Sublist.cons _ ih
    | some d =>
      have h1 : d.1 = g.1 := hF g d hFg
      simp only [List.map_cons, h1]
      exact List.Sublist.cons₂ _ ih

theorem mem_filterMap_keys {β : Type}
    (F : (String × List Schedule) → Option (String × β))
    (hF : ∀ g d, F g = some d → d.1 = g.1) (groups : List (String × List Schedule))
    (k : String) :
    k ∈ (groups.filterMap F).map Prod.fst
      ↔ ∃ g ∈ groups, g.1 = k ∧ (F g).isSome = true := by
  rw [List.mem_map]
  constructor
  · rintro ⟨d, hd, hdk⟩
    rcases List.mem_filterMap.mp hd with ⟨g, hg, hFg⟩
    exact ⟨g, hg, (hF g d hFg).symm.trans hdk, by rw [hFg]; rfl⟩
  · rintro ⟨g, hg, hgk, hs⟩
    rcases Option.isSome_iff_exists.mp hs with ⟨d, hFg⟩
    exact ⟨d, List.mem_filterMap.mpr ⟨g, hg, hFg⟩, (hF g d hFg).trans hgk⟩

theorem lexLtNat_asymm : ∀ x y, lexLtNat x y = true → lexLtNat y x = false := by
  intro x
  induction x with
  | nil =>
    intro y h
    cases y with
    | nil => exact Bool.noConfusion h
    | cons b bs => rfl
  | cons a as ih =>
    intro y h
    cases y with
    | nil => exact Bool.noConfusion h
    | cons b bs =>
      unfold lexLtNat at h ⊢
      by_cases hab : a < b
      · rw [if_neg (lt_asymm hab), if_pos hab]
      · rw [if_neg hab] at h
        by_cases hba : b < a
        · rw [if_pos hba] at h
          exact Bool.noConfusion h
        · rw [if_neg hba] at h
          rw [if_neg hba, if_neg hab]
          exact ih bs h

theorem lexLtNat_trans : ∀ x y z, lexLtNat x y = true → lexLtNat y z = true →
    lexLtNat x z = true := by
  intro x
  induction x with
  | nil =>
    intro y z hxy hyz
    cases y with
    | nil => exact Bool.noConfusion hxy
    | cons b bs =>
      cases z with
      | nil => exact Bool.noConfusion hyz
      | cons c cs => rfl
  | cons a as ih =>
    intro y z hxy hyz
    cases y with
    | nil => exact Bool.noConfusion hxy
    | cons b bs =>
      cases z with
      | nil => exact Bool.noConfusion hyz
      | cons c cs =>
        unfold lexLtNat at hxy hyz ⊢
        by_cases hab : a < b
        · by_cases hbc : b < c
          · rw [if_pos (lt_trans hab hbc)]
          · rw [if_neg hbc] at hyz
            by_cases hcb : c < b
            · rw [if_pos hcb] at hyz
              exact Bool.noConfusion hyz
            · rw [if_neg hcb] at hyz
              have hbceq : b = c := le_antisymm (le_of_not_lt hcb) (le_of_not_lt hbc)
              rw [if_pos (lt_of_lt_of_le hab (le_of_eq hbceq))]
        · rw [if_neg hab] at hxy
          by_cases hba : b < a
          · rw [if_pos hba] at hxy
            exact Bool.noConfusion hxy
          · rw [if_neg hba] at hxy
            have habeq : a = b := le_antisymm (le_of_not_lt hba) (le_of_not_lt hab)
            by_cases hbc : b < c
            · rw [if_pos (lt_of_le_of_lt (le_of_eq habeq) hbc)]
            · rw [if_neg hbc] at hyz
              by_cases hcb : c < b
              · rw [if_pos hcb] at hyz
                exact Bool.noConfusion hyz
              · rw [if_neg hcb] at hyz
                have hbceq : b = c := le_antisymm (le_of_not_lt hcb) (le_of_not_lt hbc)
                have haceq : a = c := habeq.trans hbceq
                rw [if_neg (show ¬ a < c by rw [haceq]; exact lt_irrefl c),
                  if_neg (show ¬ c < a by rw [haceq]; exact lt_irrefl c)]
                exact ih bs cs hxy hyz

theorem lexLtNat_eq_of_not_lt : ∀ x y, lexLtNat x y = false → lexLtNat y x = false →
    x = y := by
  intro x
  induction x with
  | nil =>
    intro y h1 h2
    cases y with
    | nil => rfl
    | cons b bs => exact Bool.noConfusion h1
  | cons a as ih =>
    intro y h1 h2
    cases y with
    | nil => exact Bool.noConfusion h2
    | cons b bs =>
      unfold lexLtNat at h1 h2
      by_cases hab : a < b
      · rw [if_pos hab] at h1
        exact Bool.noConfusion h1
      · rw [if_neg hab] at h1
        by_cases hba : b < a
        · rw [if_pos hba] at h2
          exact Bool.noConfusion h2
        · rw [if_neg hba] at h1
          rw [if_neg hba, if_neg hab] at h2
          have habeq : a = b := le_antisymm (le_of_not_lt hba) (le_of_not_lt hab)
          rw [habeq, ih bs h1 h2]

theorem timeLe_trans (a b c : AlarmItem) :
    timeLe a b = true → timeLe b c = true → timeLe a c = true := by
  unfold timeLe collLe
  intro hab hbc
  have hab' : lexLtNat (collKey b.time) (collKey a.time) = false := by
    cases h : lexLtNat (collKey b.time) (collKey a.time)
    · rfl
    · rw [h] at hab
      exact Bool.noConfusion hab
  have hbc' : lexLtNat (collKey c.time) (collKey b.time) = false := by
    cases h : lexLtNat (collKey c.time) (collKey b.time)
    · rfl
    · rw [h] at hbc
      exact Bool.noConfusion hbc
  cases hca : lexLtNat (collKey c.time) (collKey a.time) with
  | false => rfl
  | true =>
    cases hbk : lexLtNat (collKey b.time) (collKey c.time) with
    | true =>
      have hk := lexLtNat_trans _ _ _ hbk hca
      rw [hab'] at hk
      exact Bool.noConfusion hk
    | false =>
      have heq := lexLtNat_eq_of_not_lt _ _ hbk hbc'
      rw [← heq] at hca
      rw [hab'] at hca
      exact Bool.noConfusion hca

theorem timeLe_total (a b : AlarmItem) : (timeLe a b || timeLe b a) = true := by
  unfold timeLe collLe
  cases h : lexLtNat (collKey b.time) (collKey a.time) with
  | false => rfl
  | true =>
    rw [lexLtNat_asymm _ _ h]
    rfl

theorem mergeSort_pair (a b : AlarmItem) :
    [a, b].mergeSort timeLe = if timeLe a b then [a, b] else [b, a] := by
  simp [List.mergeSort, List.merge]

/-- C9 (counterexample): two enabled fixed schedules to the same destination
fire today at 09:00 and at 10:00, yet the digest lists the 10:00 alarm
before the 09:00 one — the sort compares the display strings character by
character, and `오전 10:00` precedes `오전 9:00` because the digit `1`
collates before `9`; the order is not ascending fire time. -/
theorem c9_counterexample :
    (sendDailySummary envAcc storeC9).map
        (fun d => (d.1, d.2.1.map (fun a => (a.name, a.time))))
      = [("C", [("ten", "오전 10:00"), ("nine", "오전 9:00")])]
    ∧ jsNumberL ((wsFields ("0 9 * * *").data).getD 1 []) = some 9
    ∧ jsNumberL ((wsFields ("0 10 * * *").data).getD 1 []) = some 10 := by
  refine ⟨?_, by decide, by decide⟩
  have h1 : sendDailySummary envAcc storeC9
      = [("C", [alarmNine, alarmTen].mergeSort timeLe, [])] := rfl
  have hfalse : timeLe alarmNine alarmTen = false := by decide
  rw [h1, mergeSort_pair, hfalse, if_neg (show ¬ (false = true) by decide)]
  rfl

/-- C9 (amended): each daily-summary fire emits at most one digest per
destination (the emitted destination keys are duplicate-free); a destination
receives a digest exactly when some enabled record whose effective
destination it is qualifies for today — so groups with zero qualifying
records are skipped and no empty digest exists; and within a digest the
alarms are sorted ascending by `localeCompare` of the display strings
(ICU collation, modelled by `collLe`), which differs from ascending fire
time because the hour is not zero-padded. -/
theorem c9_daily_summary_amended (env : Env) (store : List Schedule) :
    ((sendDailySummary env store).map Prod.fst).Nodup
    ∧ (∀ chat, chat ∈ (sendDailySummary env store).map Prod.fst
        ↔ ∃ r ∈ store, r.enabled = true ∧ effChat env r = chat
            ∧ qualifiesToday env r = true)
    ∧ ∀ d ∈ sendDailySummary env store,
        d.2.1.Pairwise (fun a b => collLe a.time b.time = true)
          ∧ (d.2.1 ≠ [] ∨ d.2.2 ≠ []) := by
  have hkey := digestOf_key (env.now + kstOffsetMs) (jsGetUTCDay (env.now + kstOffsetMs))
    (jsGetUTCDate (env.now + kstOffsetMs)) (jsGetUTCMonth1 (env.now + kstOffsetMs))
  refine ⟨?_, ?_, ?_⟩
  · rw [sendDailySummary_eq]
    exact (groupByChat_keys_nodup env _).sublist (filterMap_keys_sublist _ hkey _)
  · intro chat
    rw [sendDailySummary_eq, mem_filterMap_keys _ hkey _ chat]
    constructor
    · rintro ⟨g, hg, hgk, hs⟩
      rcases (digestOf_isSome_iff _ _ _ _ g).mp hs with ⟨r, hr, hq⟩
      have hfind := groupFind_of_mem (groupByChat_keys_nodup env _) hg
      rw [groupByChat_find] at hfind
      rw [← hfind, List.mem_filter] at hr
      rcases hr with ⟨hr1, hr2⟩
      rw [List.mem_filter] at hr1
      exact ⟨r, hr1.1, hr1.2, (of_decide_eq_true hr2).trans hgk, hq⟩
    · rintro ⟨r, hr, hen, heff, hq⟩
      have hrf : r ∈ store.filter (fun r => r.enabled) := List.mem_filter.mpr ⟨hr, hen⟩
      have hkeys : chat ∈ (groupByChat env (store.filter (fun r => r.enabled))).map Prod.fst :=
        (groupByChat_keys_mem env _ chat).mpr ⟨r, hrf, heff⟩
      refine ⟨(chat, groupFind (groupByChat env (store.filter (fun r => r.enabled))) chat),
        groupFind_mem_of_key hkeys, rfl, ?_⟩
      rw [digestOf_isSome_iff]
      refine ⟨r, ?_, hq⟩
      show r ∈ groupFind (groupByChat env (store.filter (fun r => r.enabled))) chat
      rw [groupByChat_find]
      exact List.mem_filter.mpr ⟨hrf, decide_eq_true heff⟩
  · intro d hd
    rw [sendDailySummary_eq] at hd
    rcases List.mem_filterMap.mp hd with ⟨g, hg, hdg⟩
    rcases digestOf_eq_some _ _ _ _ g d hdg with ⟨hshape, hne⟩
    constructor
    · rw [hshape]
      exact List.sorted_mergeSort timeLe_trans timeLe_total _
    · rw [not_and_or] at hne
      rcases hne with h1 | h2
      · left
        rw [hshape]
        intro hnil
        apply h1
        rw [← (List.mergeSort_perm _ timeLe).length_eq]
        exact congrArg List.length hnil
      · right
        rw [hshape]
        intro hnil
        apply h2
        rw [List.length_eq_zero]
        exact hnil

end TelegramAlarmBot
